import Mathlib

/-!
Verification of the mesh-document writer/reader of package `gm` (file `gm/io.go`):
`HashPoint`, `WriteMshD`, the document types `Vert`, `NurbsD`, `Data`, and `ReadMsh`.

Modelling conventions:
* Go `float64` values are modelled as exact rationals (`ℚ`): every finite
  `float64` is a rational number, and the float arithmetic inside `HashPoint`
  is modelled as exact rational arithmetic.  The `%24.17e` decimal formatting
  used by the writer round-trips a `float64` exactly (17 significant digits),
  so serialization of numbers is modelled as exact: the JSON model below
  carries the rational values themselves.
* Go `int` is modelled as `Int` (loop counters that are always non-negative
  are kept as `Nat` and cast on emission).
* The Go map `verts` (key → id) is only ever used for lookup and membership,
  never iterated, so it is modelled as an association list in insertion order.
* The external collaborator type `Nurbs` (construction, lattice evaluation and
  element enumeration) is not part of the source file; it is modelled from the
  spec, and each such definition is marked `Modelled from the spec:`.
* `WriteMshD`'s `dirout`/`fnk` arguments only select the output file path and
  do not influence the document content; the model returns the document.
-/

/-- Homogeneous control-point coordinate (x, y, z, weight) as returned by the
collaborator's control-point evaluation (`GetQ`, a `[]float64` of length 4). -/
structure Vec4 where
  x : ℚ
  y : ℚ
  z : ℚ
  w : ℚ
deriving DecidableEq

/-- Go's conversion `int(f)` of a `float64` truncates toward zero; on an exact
rational value `num/den` in lowest terms this is the t-division of the
numerator by the denominator. -/
def ratTrunc (q : ℚ) : Int := q.num.tdiv q.den

/-- Translation of `HashPoint` (io.go lines 18-21): the key of a point is the
affine combination `x*10001 + y*1000001 + z*100000001` truncated to an
integer. -/
def HashPoint (x y z : ℚ) : Int :=
  ratTrunc (x * 10001 + y * 1000001 + z * 100000001)

/-- Key of a control point: `HashPoint` applied to its first three
coordinates (the weight does not enter the key). -/
def Vec4.hash (v : Vec4) : Int := HashPoint v.x v.y v.z

/-- Modelled from the spec: the external collaborator's parametric shape object
(Go type `Nurbs`, defined outside `io.go`).  `gnd` is the geometry dimension
(1, 2 or 3), `p0 p1 p2` the per-axis orders (`o.p[3]`), `T` the per-axis knot
vectors (`o.b[d].T`, one per axis `d < gnd`), `Q` the control-point evaluation
(`o.GetQ(i,j,k)`), `elems` the element span tuples (`o.Elements()`) and
`enodes` the per-element lists of flat lattice indices (`o.Enodes()`). -/
structure Nurbs where
  gnd : Nat
  p0 : Nat
  p1 : Nat
  p2 : Nat
  T : List (List ℚ)
  Q : Nat → Nat → Nat → Vec4
  elems : List (List Int)
  enodes : List (List Nat)

/-- Order along axis `d` (the Go array access `o.p[d]`). -/
def Nurbs.ordOf (o : Nurbs) : Nat → Nat
  | 0 => o.p0
  | 1 => o.p1
  | _ => o.p2

/-- Modelled from the spec: the number of control points along axis `d`
(`o.n[d]`, computed by the collaborator's `Init`): the lattice extent implied
by knots and orders, `len(T[d]) - p[d] - 1`, with extent 1 on the axes beyond
the geometry dimension. -/
def Nurbs.nof (o : Nurbs) (d : Nat) : Nat :=
  if d < o.gnd then (o.T.getD d []).length - o.ordOf d - 1 else 1

/-- Lattice traversal order of `WriteMshD` (io.go lines 32-34 and 77-79):
outer loop over axis 2, then axis 1, then axis 0 innermost, so the axis-0
index varies fastest. -/
def latticeIdx (n0 n1 n2 : Nat) : List (Nat × Nat × Nat) :=
  (List.range n2).flatMap fun k =>
    (List.range n1).flatMap fun j =>
      (List.range n0).map fun i => (i, j, k)

/-- The control points of one shape, in the writer's traversal order. -/
def Nurbs.latticePoints (o : Nurbs) : List Vec4 :=
  (latticeIdx (o.nof 0) (o.nof 1) (o.nof 2)).map fun t => o.Q t.1 t.2.1 t.2.2

/-- Modelled from the spec: `o.GetQl(l)`, the control point at flat lattice
index `l`, using the collaborator's axis-0-fastest flattening convention
(the same convention the writer's traversal uses). -/
def Nurbs.Ql (o : Nurbs) (l : Nat) : Vec4 :=
  o.Q (l % o.nof 0) (l / o.nof 0 % o.nof 1) (l / (o.nof 0 * o.nof 1))

/-- All control points of a list of shapes, shape after shape, each in
traversal order: the exact sequence of points visited by `WriteMshD`'s
deduplication sweep (io.go lines 31-54). -/
def allPoints : List Nurbs → List Vec4
  | [] => []
  | o :: os => o.latticePoints ++ allPoints os

/-- Translation of `Vert` (io.go lines 134-139): one vertex record of the
document. -/
structure Vert where
  Id : Int
  Tag : Int
  C : List ℚ
deriving DecidableEq

/-- Translation of `NurbsD` (io.go lines 141-148): one shape record of the
document. -/
structure NurbsD where
  Id : Int
  Gnd : Int
  Ords : List Int
  Knots : List (List ℚ)
  Ctrls : List Int
deriving DecidableEq

/-- One cell record as written by `WriteMshD` (io.go lines 109-126). -/
structure Cell where
  Id : Int
  Tag : Int
  Nrb : Int
  Part : Int
  Geo : Int
  Span : List Int
  Verts : List Int
deriving DecidableEq

/-- The full document written by `WriteMshD`: the `verts`, `nurbss` and
`cells` sections, in this order. -/
structure Msh where
  Verts : List Vert
  Nurbss : List NurbsD
  Cells : List Cell
deriving DecidableEq

/-- Translation of `Data` (io.go lines 150-154): the part of a document that
`ReadMsh` decodes.  Note it has no field for the `cells` section, which is
therefore ignored by the reader. -/
structure Data where
  Verts : List Vert
  Nurbss : List NurbsD
deriving DecidableEq

/-- Translation of the constant `NURBS_GEO` (io.go line 15). -/
def NURBS_GEO : Int := 18

/-- Lookup in an association list, the model of a read from a Go map (first
binding wins; the maps modelled here are never built with duplicate keys). -/
def mlookup {κ α : Type} [DecidableEq κ] : List (κ × α) → κ → Option α
  | [], _ => none
  | e :: r, k => if k = e.1 then some e.2 else mlookup r k

/-- Tag of a vertex (io.go lines 38-43): `0` unless the caller-supplied table
`vtagged` is non-nil and holds the key. -/
def vtagLookup (vtagged : Option (List (Int × Int))) (hsh : Int) : Int :=
  match vtagged with
  | none => 0
  | some tbl =>
    match mlookup tbl hsh with
    | some v => v
    | none => 0

/-- State of the deduplication sweep of `WriteMshD` (io.go lines 29-30): the
vertex records emitted so far, the key-to-id map `verts`, and the counter
`vid`. -/
structure DedupSt where
  verts : List Vert
  vmap : List (Int × Int)
  vid : Nat
deriving DecidableEq

/-- One step of the deduplication sweep (io.go lines 35-50): hash the point;
if the key is new, emit a vertex record carrying the next id and the tag
looked up in `vtagged`, and extend the map. -/
def dedupPoint (vtagged : Option (List (Int × Int))) (st : DedupSt) (xq : Vec4) : DedupSt :=
  match mlookup st.vmap xq.hash with
  | some _ => st
  | none =>
    { verts := st.verts ++ [⟨(st.vid : Int), vtagLookup vtagged xq.hash, [xq.x, xq.y, xq.z, xq.w]⟩]
      vmap := st.vmap ++ [(xq.hash, (st.vid : Int))]
      vid := st.vid + 1 }

/-- The deduplication sweep over a list of points. -/
def dedupFold (vtagged : Option (List (Int × Int))) (st : DedupSt) (pts : List Vec4) : DedupSt :=
  pts.foldl (dedupPoint vtagged) st

/-- The deduplication sweep over the shapes in input order (outer loop of
io.go line 31). -/
def dedupShapes (vtagged : Option (List (Int × Int))) (st : DedupSt) : List Nurbs → DedupSt
  | [] => st
  | o :: os => dedupShapes vtagged (dedupFold vtagged st o.latticePoints) os

/-- The complete deduplication sweep of `WriteMshD`, starting from the empty
map and counter 0. -/
def dedupAll (vtagged : Option (List (Int × Int))) (nurbss : List Nurbs) : DedupSt :=
  dedupShapes vtagged ⟨[], [], 0⟩ nurbss

/-- Map with the running index, the model of Go's `for sid, o := range`. -/
def mapIdx' {α β : Type} (f : Nat → α → β) : Nat → List α → List β
  | _, [] => []
  | i, a :: as => f i a :: mapIdx' f (i + 1) as

/-- The shape record written for shape `sid` (io.go lines 56-93): id is the
input position, orders are the three array entries, knots are the `gnd` knot
vectors, and `ctrls` re-runs the lattice traversal looking each point's key up
in the dedup map (a missing key reads the Go map's zero value 0). -/
def shapeD (vmap : List (Int × Int)) (sid : Nat) (o : Nurbs) : NurbsD :=
  { Id := (sid : Int)
    Gnd := (o.gnd : Int)
    Ords := [(o.p0 : Int), (o.p1 : Int), (o.p2 : Int)]
    Knots := (List.range o.gnd).map fun d => o.T.getD d []
    Ctrls := o.latticePoints.map fun xq => (mlookup vmap xq.hash).getD 0 }

/-- The composite cell-tag key `"sid_eid"` (io.go line 105). -/
def cellKey (sid eid : Nat) : String := toString sid ++ "_" ++ toString eid

/-- Tag of a cell (io.go lines 103-108): `-1` unless the caller-supplied table
`ctagged` is non-nil and holds the composite key. -/
def ctagLookup (ctagged : Option (List (String × Int))) (key : String) : Int :=
  match ctagged with
  | none => -1
  | some tbl =>
    match mlookup tbl key with
    | some v => v
    | none => -1

/-- The cell record written for element `eid` of shape `sid` with running cell
id `cid` (io.go lines 100-126). -/
def mkCell (vmap : List (Int × Int)) (ctagged : Option (List (String × Int)))
    (sid cid eid : Nat) (o : Nurbs) (e : List Int) : Cell :=
  { Id := (cid : Int)
    Tag := ctagLookup ctagged (cellKey sid eid)
    Nrb := (sid : Int)
    Part := 0
    Geo := NURBS_GEO
    Span := e
    Verts := (o.enodes.getD eid []).map fun l => (mlookup vmap (o.Ql l).hash).getD 0 }

/-- The cells of one shape (inner loop of io.go line 99), with the running
cell id `cid` and the per-shape element index `eid`. -/
def cellsShape (vmap : List (Int × Int)) (ctagged : Option (List (String × Int)))
    (sid : Nat) (o : Nurbs) : Nat → Nat → List (List Int) → List Cell
  | _, _, [] => []
  | cid, eid, e :: es =>
    mkCell vmap ctagged sid cid eid o e :: cellsShape vmap ctagged sid o (cid + 1) (eid + 1) es

/-- The cells section (io.go lines 95-129): the cell id counter `cid` keeps
running across shapes and is not reset per shape. -/
def cellsFrom (vmap : List (Int × Int)) (ctagged : Option (List (String × Int))) :
    Nat → Nat → List Nurbs → List Cell
  | _, _, [] => []
  | sid, cid, o :: os =>
    cellsShape vmap ctagged sid o cid 0 o.elems ++
      cellsFrom vmap ctagged (sid + 1) (cid + o.elems.length) os

/-- Translation of `WriteMshD` (io.go lines 26-132), as the document it
writes: the deduplicated vertex list, one shape record per input shape in
input order, and the cells of all shapes numbered by a single counter. -/
def WriteMshD (nurbss : List Nurbs) (vtagged : Option (List (Int × Int)))
    (ctagged : Option (List (String × Int))) : Msh :=
  let st := dedupAll vtagged nurbss
  { Verts := st.verts
    Nurbss := mapIdx' (shapeD st.vmap) 0 nurbss
    Cells := cellsFrom st.vmap ctagged 0 0 nurbss }

/-- JSON values, for the decoding model of `encoding/json`.  Numbers carry
their exact rational value (see the file comment on serialization). -/
inductive Jval where
  | null : Jval
  | bool : Bool → Jval
  | num : ℚ → Jval
  | str : String → Jval
  | arr : List Jval → Jval
  | obj : List (String × Jval) → Jval

/-- Model of `encoding/json` unmarshalling of a number into a Go `int` field:
fails when the number has a fractional part. -/
def jInt : Jval → Except String Int
  | .num q => if q.den = 1 then .ok q.num else .error "json: cannot unmarshal number into field of type int"
  | _ => .error "json: cannot unmarshal value into field of type int"

/-- Model of `encoding/json` unmarshalling of a number into a `float64`
field. -/
def jNum : Jval → Except String ℚ
  | .num q => .ok q
  | _ => .error "json: cannot unmarshal value into field of type float64"

/-- Model of `encoding/json` unmarshalling of a JSON array. -/
def jArr : Jval → Except String (List Jval)
  | .arr l => .ok l
  | _ => .error "json: cannot unmarshal value into slice"

/-- Element-wise unmarshalling of a JSON array's entries. -/
def jList {α : Type} (f : Jval → Except String α) : List Jval → Except String (List α)
  | [] => .ok []
  | j :: js => do
    let a ← f j
    let as ← jList f js
    .ok (a :: as)

/-- Model of `encoding/json` decoding of one struct field: a missing key
leaves the field's zero value (this is why a document without a `nurbss`
field decodes successfully to an empty shape list), a present key must
unmarshal to the field's type.  Go matches exported field names to keys
case-insensitively; the documents in scope use exactly the lower-case keys
the writer emits, so the model looks the lower-case key up directly. -/
def jfieldD {α : Type} (fs : List (String × Jval)) (name : String) (dflt : α)
    (f : Jval → Except String α) : Except String α :=
  match mlookup fs name with
  | none => .ok dflt
  | some j => f j

/-- Unmarshalling of one `Vert` record (fields `Id`, `Tag`, `C` matched by the
keys `id`, `tag`, `c`). -/
def unmarshalVert : Jval → Except String Vert
  | .obj fs => do
    let i ← jfieldD fs "id" 0 jInt
    let t ← jfieldD fs "tag" 0 jInt
    let c ← jfieldD fs "c" [] fun j => (jArr j).bind (jList jNum)
    .ok ⟨i, t, c⟩
  | _ => .error "json: cannot unmarshal value into gm.Vert"

/-- Unmarshalling of a JSON array of integers. -/
def unmarshalIntList (j : Jval) : Except String (List Int) := (jArr j).bind (jList jInt)

/-- Unmarshalling of a JSON array of numbers. -/
def unmarshalNumList (j : Jval) : Except String (List ℚ) := (jArr j).bind (jList jNum)

/-- Unmarshalling of one `NurbsD` record (fields `Id`, `Gnd`, `Ords`, `Knots`,
`Ctrls` matched by the keys `id`, `gnd`, `ords`, `knots`, `ctrls`). -/
def unmarshalNurbsD : Jval → Except String NurbsD
  | .obj fs => do
    let i ← jfieldD fs "id" 0 jInt
    let g ← jfieldD fs "gnd" 0 jInt
    let ords ← jfieldD fs "ords" [] unmarshalIntList
    let knots ← jfieldD fs "knots" [] fun j => (jArr j).bind (jList unmarshalNumList)
    let ctrls ← jfieldD fs "ctrls" [] unmarshalIntList
    .ok ⟨i, g, ords, knots, ctrls⟩
  | _ => .error "json: cannot unmarshal value into gm.NurbsD"

/-- Model of `json.Unmarshal(buf, &dat)` for `dat : Data` (io.go lines
167-171): the top level must be an object; the `verts` and `nurbss` fields
decode into the two slices, a missing field leaving a nil (empty) slice; any
other key, in particular `cells`, is ignored. -/
def unmarshalData : Jval → Except String Data
  | .obj fs => do
    let vs ← jfieldD fs "verts" [] fun j => (jArr j).bind (jList unmarshalVert)
    let ns ← jfieldD fs "nurbss" [] fun j => (jArr j).bind (jList unmarshalNurbsD)
    .ok ⟨vs, ns⟩
  | _ => .error "json: cannot unmarshal value into gm.Data"

/-- The JSON value of one written vertex record (io.go line 47). -/
def Vert.toJson (v : Vert) : Jval :=
  .obj [("id", .num (v.Id : ℚ)), ("tag", .num (v.Tag : ℚ)), ("c", .arr (v.C.map Jval.num))]

/-- The JSON value of one written shape record (io.go lines 60-92). -/
def NurbsD.toJson (v : NurbsD) : Jval :=
  .obj [("id", .num (v.Id : ℚ)), ("gnd", .num (v.Gnd : ℚ)),
    ("ords", .arr (v.Ords.map fun i : Int => Jval.num (i : ℚ))),
    ("knots", .arr (v.Knots.map fun ks => Jval.arr (ks.map Jval.num))),
    ("ctrls", .arr (v.Ctrls.map fun i : Int => Jval.num (i : ℚ)))]

/-- The JSON value of one written cell record (io.go lines 109-126). -/
def Cell.toJson (c : Cell) : Jval :=
  .obj [("id", .num (c.Id : ℚ)), ("tag", .num (c.Tag : ℚ)), ("nrb", .num (c.Nrb : ℚ)),
    ("part", .num (c.Part : ℚ)), ("geo", .num (c.Geo : ℚ)),
    ("span", .arr (c.Span.map fun i : Int => Jval.num (i : ℚ))),
    ("verts", .arr (c.Verts.map fun i : Int => Jval.num (i : ℚ)))]

/-- The JSON value of the whole written document (io.go lines 28-130): the
`verts`, `nurbss` and `cells` sections in this order. -/
def Msh.toJson (m : Msh) : Jval :=
  .obj [("verts", .arr (m.Verts.map Vert.toJson)),
    ("nurbss", .arr (m.Nurbss.map NurbsD.toJson)),
    ("cells", .arr (m.Cells.map Cell.toJson))]

/-- Outcome of a Go call in the model: a normal result, a reported fatal
error (`utl.Panic`, which carries a message), or an unrecovered runtime panic
such as an index out of range (which carries no decode diagnostics). -/
inductive GoResult (α : Type) where
  | ok : α → GoResult α
  | panicErr : String → GoResult α
  | oobPanic : GoResult α

/-- The result value of a `GoResult`, with a default for the failure cases. -/
def GoResult.okD {α : Type} (r : GoResult α) (d : α) : α :=
  match r with
  | .ok a => a
  | _ => d

/-- Whether a `GoResult` is a normal result. -/
def GoResult.isOk {α : Type} : GoResult α → Bool
  | .ok _ => true
  | _ => false

/-- The file handed to `ReadMsh`: unreadable, readable but not valid JSON, or
a JSON document. -/
inductive MshFile where
  | absent : String → MshFile
  | invalid : String → MshFile
  | valid : Jval → MshFile

/-- Translation of `_io_err1` (io.go line 194), the read-failure message:
mentions the file name.  (The Go format string also wraps the name in single
quote characters, omitted here.) -/
def ioErr1 (fn msg : String) : String :=
  "ReadMsh cannot read file = " ++ fn ++ ", " ++ msg

/-- Translation of `_io_err2` (io.go line 195), the decode-failure message:
mentions the file name. -/
def ioErr2 (fn msg : String) : String :=
  "ReadMsh cannot unmarshal file = " ++ fn ++ ", " ++ msg

/-- The first four coordinates of a vertex record, exactly as `ReadMsh` reads
them (io.go lines 176-179): `none` when `C` has fewer than four entries, in
which case the Go indexing `dat.Verts[i].C[j]` is out of bounds. -/
def vertRow (v : Vert) : Option (List ℚ) :=
  match v.C.get? 0, v.C.get? 1, v.C.get? 2, v.C.get? 3 with
  | some a, some b, some c, some d => some [a, b, c, d]
  | _, _, _, _ => none

/-- The flat vertex coordinate table built by `ReadMsh` (io.go lines 174-180):
row `i` of the table comes from position `i` of the decoded vertex list (the
`Id` field plays no role). -/
def mkVerts : List Vert → Option (List (List ℚ))
  | [] => some []
  | v :: vs => do
    let r ← vertRow v
    let rs ← mkVerts vs
    some (r :: rs)

/-- Modelled from the spec: the collaborator calls `Init(v.Gnd, v.Ords,
v.Knots)` followed by `SetControl(verts, v.Ctrls)` (io.go lines 186-187).
`Init` stores dimension, orders and knots and derives the lattice extents
from knots and orders; `SetControl` binds the control lattice so that the
point at lattice index `(i,j,k)` is the vertex-table row selected by the
control id at flat position `i + n0*(j + n1*k)` (the collaborator's
axis-0-fastest convention).  The collaborator re-derives its element
enumeration from the knot vectors; it is not represented here and no claim
refers to it, so the reconstructed shape carries empty element lists.
`nofD` is the lattice extent the collaborator derives from a decoded shape
record's knots and orders, as in `Nurbs.nof`. -/
def nofD (gnd : Nat) (ords : List Int) (knots : List (List ℚ)) (d : Nat) : Nat :=
  if d < gnd then (knots.getD d []).length - (ords.getD d 0).toNat - 1 else 1

/-- Modelled from the spec: the reconstruction of one shape from its decoded
record, `Init(v.Gnd, v.Ords, v.Knots)` then `SetControl(verts, v.Ctrls)`
(io.go lines 186-187), see the previous comment. -/
def reconstruct (verts : List (List ℚ)) (v : NurbsD) : Nurbs :=
  { gnd := v.Gnd.toNat
    p0 := (v.Ords.getD 0 0).toNat
    p1 := (v.Ords.getD 1 0).toNat
    p2 := (v.Ords.getD 2 0).toNat
    T := v.Knots
    Q := fun i j k =>
      let row := verts.getD (v.Ctrls.getD
        (i + nofD v.Gnd.toNat v.Ords v.Knots 0 *
          (j + nofD v.Gnd.toNat v.Ords v.Knots 1 * k)) 0).toNat []
      ⟨row.getD 0 0, row.getD 1 0, row.getD 2 0, row.getD 3 0⟩
    elems := []
    enodes := [] }

/-- Translation of `ReadMsh` (io.go lines 157-190): read the file (a failure
is fatal with `_io_err1`), unmarshal it (a failure is fatal with `_io_err2`),
build the flat vertex table (an entry with fewer than four coordinates is an
out-of-range runtime panic), then reconstruct one object per decoded shape
record, in document order. -/
def ReadMsh (fnk : String) (file : MshFile) : GoResult (List Nurbs) :=
  match file with
  | .absent msg => .panicErr (ioErr1 (fnk ++ ".msh") msg)
  | .invalid msg => .panicErr (ioErr2 (fnk ++ ".msh") msg)
  | .valid j =>
    match unmarshalData j with
    | .error msg => .panicErr (ioErr2 (fnk ++ ".msh") msg)
    | .ok dat =>
      match mkVerts dat.Verts with
      | none => .oobPanic
      | some verts => .ok (dat.Nurbss.map (reconstruct verts))

/-- A placeholder shape, used only as the default value of list accesses in
closed statements. -/
def dummyNurbs : Nurbs :=
  ⟨0, 0, 0, 0, [], fun _ _ _ => ⟨0, 0, 0, 0⟩, [], []⟩

/-! ## List utilities -/

theorem mapIdx'_length {α β : Type} (f : Nat → α → β) (s : Nat) (l : List α) :
    (mapIdx' f s l).length = l.length := by
  induction l generalizing s with
  | nil => rfl
  | cons a as ih => simp [mapIdx', ih]

theorem mapIdx'_getElem? {α β : Type} (f : Nat → α → β) (s : Nat) (l : List α) (i : Nat) :
    (mapIdx' f s l)[i]? = (l[i]?).map (f (s + i)) := by
  induction l generalizing s i with
  | nil => simp [mapIdx']
  | cons a as ih =>
    cases i with
    | zero => simp [mapIdx']
    | succ n =>
      simp only [mapIdx', List.getElem?_cons_succ, ih (s + 1) n]
      have : s + 1 + n = s + (n + 1) := by omega
      rw [this]

theorem flatMapRange_length {α : Type} (f : Nat → List α) (c : Nat)
    (hc : ∀ i, (f i).length = c) (n : Nat) :
    ((List.range n).flatMap f).length = n * c := by
  induction n with
  | zero => simp
  | succ m ih =>
    rw [List.range_succ, List.flatMap_append, List.length_append, ih]
    simp [hc, Nat.succ_mul]

theorem flatMapRange_getElem? {α : Type} (f : Nat → List α) (c : Nat)
    (hc : ∀ i, (f i).length = c) (n q r : Nat) (hq : q < n) (hr : r < c) :
    ((List.range n).flatMap f)[c * q + r]? = (f q)[r]? := by
  revert hq
  induction n with
  | zero => intro hq; omega
  | succ m ih =>
    intro hq
    rw [List.range_succ, List.flatMap_append]
    have hlen : ((List.range m).flatMap f).length = m * c := flatMapRange_length f c hc m
    rcases Nat.lt_or_ge q m with hqm | hqm
    · have hle : (q + 1) * c ≤ m * c := Nat.mul_le_mul_right c (Nat.succ_le_of_lt hqm)
      have hqc : c * q + c = (q + 1) * c := by ring
      have hlt : c * q + r < ((List.range m).flatMap f).length := by
        rw [hlen]; omega
      rw [List.getElem?_append_left hlt]
      exact ih hqm
    · have hq' : q = m := by omega
      subst hq'
      have hcm : c * q = q * c := Nat.mul_comm c q
      have hge : ((List.range q).flatMap f).length ≤ c * q + r := by rw [hlen]; omega
      rw [List.getElem?_append_right hge, hlen]
      simp only [List.flatMap_cons, List.flatMap_nil, List.append_nil]
      congr 1
      omega

/-! ## Lattice traversal lemmas -/

theorem latticeIdx_length (n0 n1 n2 : Nat) :
    (latticeIdx n0 n1 n2).length = n0 * n1 * n2 := by
  unfold latticeIdx
  rw [flatMapRange_length _ (n1 * n0)]
  · ring
  · intro k
    rw [flatMapRange_length _ n0]
    intro j
    simp

theorem latticeIdx_getElem?_enc (n0 n1 n2 i j k : Nat)
    (hi : i < n0) (hj : j < n1) (hk : k < n2) :
    (latticeIdx n0 n1 n2)[i + n0 * (j + n1 * k)]? = some (i, j, k) := by
  unfold latticeIdx
  have hidx : i + n0 * (j + n1 * k) = n1 * n0 * k + (n0 * j + i) := by ring
  rw [hidx]
  rw [flatMapRange_getElem? _ (n1 * n0) ?hc n2 k (n0 * j + i) hk ?hb]
  case hc =>
    intro kk
    rw [flatMapRange_length _ n0]
    intro jj
    simp
  case hb =>
    have h1 : n0 * j + n0 ≤ n0 * n1 := by
      calc n0 * j + n0 = n0 * (j + 1) := by ring
      _ ≤ n0 * n1 := Nat.mul_le_mul_left n0 (Nat.succ_le_of_lt hj)
    have : n0 * j + i < n0 * n1 := by omega
    calc n0 * j + i < n0 * n1 := this
    _ = n1 * n0 := Nat.mul_comm n0 n1
  rw [flatMapRange_getElem? _ n0 (fun jj => by simp) n1 j i hj hi]
  simp [List.getElem?_map, List.getElem?_range hi]

theorem mem_latticeIdx (n0 n1 n2 i j k : Nat)
    (hi : i < n0) (hj : j < n1) (hk : k < n2) :
    (i, j, k) ∈ latticeIdx n0 n1 n2 := by
  unfold latticeIdx
  simp only [List.mem_flatMap, List.mem_map, List.mem_range]
  exact ⟨k, hk, j, hj, i, hi, rfl⟩

theorem latticePoints_length (o : Nurbs) :
    o.latticePoints.length = o.nof 0 * o.nof 1 * o.nof 2 := by
  unfold Nurbs.latticePoints
  rw [List.length_map, latticeIdx_length]

theorem latticePoints_getElem?_enc (o : Nurbs) (i j k : Nat)
    (hi : i < o.nof 0) (hj : j < o.nof 1) (hk : k < o.nof 2) :
    o.latticePoints[i + o.nof 0 * (j + o.nof 1 * k)]? = some (o.Q i j k) := by
  unfold Nurbs.latticePoints
  rw [List.getElem?_map, latticeIdx_getElem?_enc _ _ _ _ _ _ hi hj hk]
  rfl

theorem mem_latticePoints (o : Nurbs) (i j k : Nat)
    (hi : i < o.nof 0) (hj : j < o.nof 1) (hk : k < o.nof 2) :
    o.Q i j k ∈ o.latticePoints := by
  unfold Nurbs.latticePoints
  exact List.mem_map.2 ⟨(i, j, k), mem_latticeIdx _ _ _ _ _ _ hi hj hk, rfl⟩

theorem mem_allPoints {o : Nurbs} {nurbss : List Nurbs} {x : Vec4}
    (ho : o ∈ nurbss) (hx : x ∈ o.latticePoints) : x ∈ allPoints nurbss := by
  induction nurbss with
  | nil => cases ho
  | cons hd tl ih =>
    rcases List.mem_cons.1 ho with h | h
    · subst h
      exact List.mem_append.2 (Or.inl hx)
    · exact List.mem_append.2 (Or.inr (ih h))

/-! ## Association-list lookup lemmas -/

theorem mlookup_eq_none_iff {κ α : Type} [DecidableEq κ] (l : List (κ × α)) (k : κ) :
    mlookup l k = none ↔ k ∉ l.map Prod.fst := by
  induction l with
  | nil => simp [mlookup]
  | cons e r ih =>
    by_cases hk : k = e.1
    · simp [mlookup, hk]
    · simp [mlookup, hk, ih, Ne.symm hk]

theorem mlookup_append_some {κ α : Type} [DecidableEq κ] {l1 : List (κ × α)}
    (l2 : List (κ × α)) {k : κ} {v : α} (h : mlookup l1 k = some v) :
    mlookup (l1 ++ l2) k = some v := by
  induction l1 with
  | nil => simp [mlookup] at h
  | cons e r ih =>
    by_cases hk : k = e.1
    · simp only [mlookup, if_pos hk] at h ⊢
      exact h
    · simp only [mlookup, if_neg hk] at h ⊢
      exact ih h

theorem mlookup_append_none {κ α : Type} [DecidableEq κ] {l1 : List (κ × α)}
    (l2 : List (κ × α)) {k : κ} (h : mlookup l1 k = none) :
    mlookup (l1 ++ l2) k = mlookup l2 k := by
  induction l1 with
  | nil => simp
  | cons e r ih =>
    by_cases hk : k = e.1
    · simp [mlookup, if_pos hk] at h
    · simp only [mlookup, if_neg hk] at h ⊢
      exact ih h

theorem mlookup_mem {κ α : Type} [DecidableEq κ] {l : List (κ × α)} {k : κ} {v : α}
    (h : mlookup l k = some v) : (k, v) ∈ l := by
  induction l with
  | nil => simp [mlookup] at h
  | cons e r ih =>
    by_cases hk : k = e.1
    · simp only [mlookup, if_pos hk] at h
      subst hk
      obtain ⟨e1, e2⟩ := e
      simp_all
    · simp only [mlookup, if_neg hk] at h
      exact List.mem_cons.2 (Or.inr (ih h))

/-! ## Deduplication sweep invariants -/

/-- Invariant of the deduplication state after processing the points `pts`:
the counter equals the number of emitted vertex records and of map entries,
the map keys are pairwise distinct, and the `i`-th map entry pairs the key of
some processed point with the id `i`, whose vertex record carries that id,
the tag looked up for that key, and the point's four coordinates. -/
def GoodSt (vtagged : Option (List (Int × Int))) (pts : List Vec4) (st : DedupSt) : Prop :=
  st.verts.length = st.vid ∧ st.vmap.length = st.vid ∧
  (st.vmap.map Prod.fst).Nodup ∧
  ∀ i, i < st.vid → ∃ x, x ∈ pts ∧
    st.vmap[i]? = some (x.hash, (i : Int)) ∧
    st.verts[i]? = some ⟨(i : Int), vtagLookup vtagged x.hash, [x.x, x.y, x.z, x.w]⟩

theorem goodSt_mono {vt : Option (List (Int × Int))} {pts pts' : List Vec4} {st : DedupSt}
    (hsub : ∀ x, x ∈ pts → x ∈ pts') (h : GoodSt vt pts st) : GoodSt vt pts' st := by
  obtain ⟨h1, h2, h3, h4⟩ := h
  refine ⟨h1, h2, h3, fun i hi => ?_⟩
  obtain ⟨x, hx, hm, hv⟩ := h4 i hi
  exact ⟨x, hsub x hx, hm, hv⟩

theorem dedupPoint_good {vt : Option (List (Int × Int))} {pts : List Vec4} {st : DedupSt}
    {x : Vec4} (h : GoodSt vt pts st) : GoodSt vt (pts ++ [x]) (dedupPoint vt st x) := by
  obtain ⟨h1, h2, h3, h4⟩ := h
  cases hc : mlookup st.vmap x.hash with
  | some v =>
    simp only [dedupPoint, hc]
    exact goodSt_mono (fun y hy => List.mem_append.2 (Or.inl hy)) ⟨h1, h2, h3, h4⟩
  | none =>
    simp only [dedupPoint, hc]
    refine ⟨by simp [h1], by simp [h2], ?_, ?_⟩
    · have hnotin : x.hash ∉ st.vmap.map Prod.fst := (mlookup_eq_none_iff _ _).1 hc
      simp [List.nodup_append, h3, hnotin]
    · intro i hi
      simp only at hi
      rcases Nat.lt_or_ge i st.vid with hlt | hge
      · obtain ⟨y, hy, hm, hv⟩ := h4 i hlt
        refine ⟨y, List.mem_append.2 (Or.inl hy), ?_, ?_⟩
        · rw [List.getElem?_append_left (by rw [h2]; exact hlt)]
          exact hm
        · rw [List.getElem?_append_left (by rw [h1]; exact hlt)]
          exact hv
      · have hieq : i = st.vid := by omega
        subst hieq
        refine ⟨x, List.mem_append.2 (Or.inr (by simp)), ?_, ?_⟩
        · have hcl := List.getElem?_concat_length st.vmap (x.hash, (st.vid : Int))
          rw [h2] at hcl
          exact hcl
        · have hcl := List.getElem?_concat_length st.verts
            ⟨(st.vid : Int), vtagLookup vt x.hash, [x.x, x.y, x.z, x.w]⟩
          rw [h1] at hcl
          exact hcl

theorem dedupFold_good {vt : Option (List (Int × Int))} :
    ∀ (pts pre : List Vec4) (st : DedupSt),
    GoodSt vt pre st → GoodSt vt (pre ++ pts) (dedupFold vt st pts) := by
  intro pts
  induction pts with
  | nil =>
    intro pre st h
    simpa [dedupFold] using goodSt_mono (fun y hy => by simpa using hy) h
  | cons x rest ih =>
    intro pre st h
    have hstep := dedupPoint_good (x := x) h
    have hrest := ih (pre ++ [x]) (dedupPoint vt st x) hstep
    have heq : (pre ++ [x]) ++ rest = pre ++ x :: rest := by simp
    rw [heq] at hrest
    simpa only [dedupFold, List.foldl_cons] using hrest

theorem dedupShapes_eq (vt : Option (List (Int × Int))) :
    ∀ (os : List Nurbs) (st : DedupSt),
    dedupShapes vt st os = dedupFold vt st (allPoints os) := by
  intro os
  induction os with
  | nil => intro st; rfl
  | cons o rest ih =>
    intro st
    simp only [dedupShapes, allPoints, dedupFold, List.foldl_append]
    exact ih _

theorem dedupAll_good (vt : Option (List (Int × Int))) (nurbss : List Nurbs) :
    GoodSt vt (allPoints nurbss) (dedupAll vt nurbss) := by
  have h0 : GoodSt vt [] ⟨[], [], 0⟩ :=
    ⟨rfl, rfl, by simp, fun i hi => (Nat.not_lt_zero i hi).elim⟩
  have hf := @dedupFold_good vt (allPoints nurbss) [] _ h0
  rw [List.nil_append] at hf
  unfold dedupAll
  rw [dedupShapes_eq]
  exact hf

/-! ## Coverage: every traversed point's key ends up in the map -/

theorem dedupPoint_lookup_mono {vt : Option (List (Int × Int))} {st : DedupSt} {x : Vec4}
    {h : Int} {v : Int} (hl : mlookup st.vmap h = some v) :
    mlookup (dedupPoint vt st x).vmap h = some v := by
  cases hc : mlookup st.vmap x.hash with
  | some w => simpa only [dedupPoint, hc] using hl
  | none =>
    simp only [dedupPoint, hc]
    exact mlookup_append_some _ hl

theorem dedupPoint_lookup_self (vt : Option (List (Int × Int))) (st : DedupSt) (x : Vec4) :
    ∃ v, mlookup (dedupPoint vt st x).vmap x.hash = some v := by
  cases hc : mlookup st.vmap x.hash with
  | some w =>
    refine ⟨w, ?_⟩
    simp only [dedupPoint, hc]
  | none =>
    refine ⟨(st.vid : Int), ?_⟩
    simp only [dedupPoint, hc]
    rw [mlookup_append_none _ hc]
    simp [mlookup]

theorem dedupFold_lookup_mono {vt : Option (List (Int × Int))} :
    ∀ (pts : List Vec4) {st : DedupSt} {h v : Int},
    mlookup st.vmap h = some v → mlookup (dedupFold vt st pts).vmap h = some v := by
  intro pts
  induction pts with
  | nil => intro st h v hl; exact hl
  | cons x rest ih =>
    intro st h v hl
    simp only [dedupFold, List.foldl_cons]
    exact ih (dedupPoint_lookup_mono hl)

theorem dedupFold_covers {vt : Option (List (Int × Int))} :
    ∀ (pts : List Vec4) (st : DedupSt) (x : Vec4), x ∈ pts →
    ∃ v, mlookup (dedupFold vt st pts).vmap x.hash = some v := by
  intro pts
  induction pts with
  | nil => intro st x hx; cases hx
  | cons y rest ih =>
    intro st x hx
    rcases List.mem_cons.1 hx with hh | hh
    · subst hh
      obtain ⟨v, hv⟩ := dedupPoint_lookup_self vt st x
      refine ⟨v, ?_⟩
      simp only [dedupFold, List.foldl_cons]
      exact dedupFold_lookup_mono rest hv
    · simp only [dedupFold, List.foldl_cons]
      exact ih _ x hh

theorem dedupAll_covers {vt : Option (List (Int × Int))} {nurbss : List Nurbs} {x : Vec4}
    (hx : x ∈ allPoints nurbss) :
    ∃ v, mlookup (dedupAll vt nurbss).vmap x.hash = some v := by
  unfold dedupAll
  rw [dedupShapes_eq]
  exact dedupFold_covers _ _ _ hx

/-! ## Consequences of the invariant -/

theorem goodSt_lookup {vt : Option (List (Int × Int))} {pts : List Vec4} {st : DedupSt}
    {h v : Int} (hg : GoodSt vt pts st) (hl : mlookup st.vmap h = some v) :
    ∃ n : Nat, n < st.vid ∧ v = (n : Int) ∧ st.vmap[n]? = some (h, (n : Int)) ∧
      ∃ x, x ∈ pts ∧ x.hash = h ∧
        st.verts[n]? = some ⟨(n : Int), vtagLookup vt h, [x.x, x.y, x.z, x.w]⟩ := by
  obtain ⟨h1, h2, h3, h4⟩ := hg
  have hmem : (h, v) ∈ st.vmap := mlookup_mem hl
  obtain ⟨n, hn, hget⟩ := List.getElem_of_mem hmem
  have hn' : n < st.vid := by rw [h2] at hn; exact hn
  obtain ⟨x, hx, hm, hv⟩ := h4 n hn'
  have hsome : st.vmap[n]? = some (h, v) := by
    rw [List.getElem?_eq_getElem hn, hget]
  rw [hm] at hsome
  have hpair : x.hash = h ∧ (n : Int) = v := by
    have := Option.some.inj hsome
    exact ⟨congrArg Prod.fst this, congrArg Prod.snd this⟩
  obtain ⟨hxh, hnv⟩ := hpair
  refine ⟨n, hn', hnv.symm, ?_, x, hx, hxh, ?_⟩
  · rw [hm, hxh]
  · rw [hv, hxh]

theorem goodSt_inj {vt : Option (List (Int × Int))} {pts : List Vec4} {st : DedupSt}
    {h1 h2 v1 v2 : Int} (hg : GoodSt vt pts st) (hne : h1 ≠ h2)
    (l1 : mlookup st.vmap h1 = some v1) (l2 : mlookup st.vmap h2 = some v2) : v1 ≠ v2 := by
  obtain ⟨n1, _, hv1, hm1, _⟩ := goodSt_lookup hg l1
  obtain ⟨n2, _, hv2, hm2, _⟩ := goodSt_lookup hg l2
  intro hv
  apply hne
  have hn : n1 = n2 := by
    have : (n1 : Int) = (n2 : Int) := by rw [← hv1, ← hv2, hv]
    exact_mod_cast this
  subst hn
  rw [hm1] at hm2
  have := Option.some.inj hm2
  exact congrArg Prod.fst this

/-! ## Writer document lemmas -/

theorem writeMshD_Verts (nurbss : List Nurbs) (vt : Option (List (Int × Int)))
    (ct : Option (List (String × Int))) :
    (WriteMshD nurbss vt ct).Verts = (dedupAll vt nurbss).verts := rfl

theorem writeMshD_Nurbss_getElem? (nurbss : List Nurbs) (vt : Option (List (Int × Int)))
    (ct : Option (List (String × Int))) (a : Nat) :
    (WriteMshD nurbss vt ct).Nurbss[a]? =
      (nurbss[a]?).map (shapeD (dedupAll vt nurbss).vmap a) := by
  show (mapIdx' (shapeD (dedupAll vt nurbss).vmap) 0 nurbss)[a]? = _
  rw [mapIdx'_getElem?, Nat.zero_add]

/-- Total number of elements over a list of shapes. -/
def elemsCount : List Nurbs → Nat
  | [] => 0
  | o :: os => o.elems.length + elemsCount os

theorem cellsShape_length (vmap : List (Int × Int)) (ct : Option (List (String × Int)))
    (sid : Nat) (o : Nurbs) :
    ∀ (es : List (List Int)) (cid eid : Nat),
    (cellsShape vmap ct sid o cid eid es).length = es.length := by
  intro es
  induction es with
  | nil => intro cid eid; rfl
  | cons hd tl ih =>
    intro cid eid
    simp only [cellsShape, List.length_cons, ih]

theorem cellsShape_getElem? (vmap : List (Int × Int)) (ct : Option (List (String × Int)))
    (sid : Nat) (o : Nurbs) :
    ∀ (es : List (List Int)) (cid eid e : Nat),
    (cellsShape vmap ct sid o cid eid es)[e]? =
      (es[e]?).map fun el => mkCell vmap ct sid (cid + e) (eid + e) o el := by
  intro es
  induction es with
  | nil => intro cid eid e; simp [cellsShape]
  | cons hd tl ih =>
    intro cid eid e
    cases e with
    | zero => simp [cellsShape]
    | succ n =>
      simp only [cellsShape, List.getElem?_cons_succ, ih (cid + 1) (eid + 1) n]
      have h1 : cid + 1 + n = cid + (n + 1) := by omega
      have h2 : eid + 1 + n = eid + (n + 1) := by omega
      rw [h1, h2]

theorem cellsFrom_length (vmap : List (Int × Int)) (ct : Option (List (String × Int))) :
    ∀ (os : List Nurbs) (sid cid : Nat),
    (cellsFrom vmap ct sid cid os).length = elemsCount os := by
  intro os
  induction os with
  | nil => intro sid cid; rfl
  | cons hd tl ih =>
    intro sid cid
    simp only [cellsFrom, List.length_append, cellsShape_length, elemsCount, ih]

theorem cellsShape_map_Id (vmap : List (Int × Int)) (ct : Option (List (String × Int)))
    (sid : Nat) (o : Nurbs) :
    ∀ (es : List (List Int)) (cid eid : Nat),
    (cellsShape vmap ct sid o cid eid es).map Cell.Id =
      (List.range' cid es.length).map Int.ofNat := by
  intro es
  induction es with
  | nil => intro cid eid; rfl
  | cons hd tl ih =>
    intro cid eid
    simp only [cellsShape, List.map_cons, List.length_cons, List.range', ih (cid + 1) (eid + 1)]
    rfl

theorem cellsFrom_map_Id (vmap : List (Int × Int)) (ct : Option (List (String × Int))) :
    ∀ (os : List Nurbs) (sid cid : Nat),
    (cellsFrom vmap ct sid cid os).map Cell.Id =
      (List.range' cid (elemsCount os)).map Int.ofNat := by
  intro os
  induction os with
  | nil => intro sid cid; rfl
  | cons hd tl ih =>
    intro sid cid
    have hr : List.range' cid (hd.elems.length + elemsCount tl) =
        List.range' cid hd.elems.length ++ List.range' (cid + hd.elems.length) (elemsCount tl) := by
      have hra := List.range'_append cid hd.elems.length (elemsCount tl) 1
      rw [Nat.one_mul] at hra
      rw [Nat.add_comm hd.elems.length (elemsCount tl)]
      exact hra.symm
    simp only [cellsFrom, List.map_append, elemsCount, hr, cellsShape_map_Id, ih]

theorem cellsFrom_getElem? (vmap : List (Int × Int)) (ct : Option (List (String × Int))) :
    ∀ (os : List Nurbs) (sid cid a e : Nat) (ha : a < os.length)
      (he : e < os[a].elems.length),
    (cellsFrom vmap ct sid cid os)[elemsCount (os.take a) + e]? =
      some (mkCell vmap ct (sid + a) (cid + elemsCount (os.take a) + e) e os[a]
        (os[a].elems[e])) := by
  intro os
  induction os with
  | nil => intro sid cid a e ha; exact absurd ha (by simp)
  | cons hd tl ih =>
    intro sid cid a e ha he
    cases a with
    | zero =>
      simp only [List.take_zero, elemsCount, Nat.zero_add, List.getElem_cons_zero] at he ⊢
      have hlen : e < (cellsShape vmap ct sid hd cid 0 hd.elems).length := by
        rw [cellsShape_length]; exact he
      rw [cellsFrom, List.getElem?_append_left hlen, cellsShape_getElem?]
      rw [List.getElem?_eq_getElem he]
      simp
    | succ b =>
      have ha' : b < tl.length := by simpa using ha
      have he' : e < tl[b].elems.length := by
        simpa using he
      have htake : (hd :: tl).take (b + 1) = hd :: tl.take b := rfl
      have hcnt : elemsCount ((hd :: tl).take (b + 1)) =
          hd.elems.length + elemsCount (tl.take b) := by rw [htake]; rfl
      have hge : (cellsShape vmap ct sid hd cid 0 hd.elems).length ≤
          elemsCount ((hd :: tl).take (b + 1)) + e := by
        rw [cellsShape_length, hcnt]; omega
      rw [cellsFrom, List.getElem?_append_right hge]
      have hidx : elemsCount ((hd :: tl).take (b + 1)) + e -
          (cellsShape vmap ct sid hd cid 0 hd.elems).length =
          elemsCount (tl.take b) + e := by
        rw [cellsShape_length, hcnt]; omega
      rw [hidx]
      have := ih (sid + 1) (cid + hd.elems.length) b e ha' he'
      rw [this]
      have e1 : sid + 1 + b = sid + (b + 1) := by omega
      have e2 : cid + hd.elems.length + elemsCount (tl.take b) + e =
          cid + elemsCount ((hd :: tl).take (b + 1)) + e := by rw [hcnt]; omega
      rw [e1, e2]
      congr 2

/-- Every emitted vertex record originates from a traversed control point:
it stores the point's four coordinates and the tag looked up for the point's
key. -/
theorem dedupAll_verts_mem (vt : Option (List (Int × Int))) (nurbss : List Nurbs) {v : Vert}
    (hv : v ∈ (dedupAll vt nurbss).verts) :
    ∃ x, x ∈ allPoints nurbss ∧ v.C = [x.x, x.y, x.z, x.w] ∧
      v.Tag = vtagLookup vt x.hash := by
  have hg := dedupAll_good vt nurbss
  obtain ⟨h1, h2, h3, h4⟩ := hg
  obtain ⟨n, hn, hget⟩ := List.getElem_of_mem hv
  have hn' : n < (dedupAll vt nurbss).vid := by rw [h1] at hn; exact hn
  obtain ⟨x, hx, hm, hvert⟩ := h4 n hn'
  have : (dedupAll vt nurbss).verts[n]? = some v := by
    rw [List.getElem?_eq_getElem hn, hget]
  rw [hvert] at this
  have hveq : v = ⟨(n : Int), vtagLookup vt x.hash, [x.x, x.y, x.z, x.w]⟩ :=
    (Option.some.inj this).symm
  subst hveq
  exact ⟨x, hx, rfl, rfl⟩

/-- The ids of the emitted vertex records are `0, 1, 2, ...` in order. -/
theorem dedupAll_verts_map_Id (vt : Option (List (Int × Int))) (nurbss : List Nurbs) :
    (dedupAll vt nurbss).verts.map Vert.Id =
      (List.range (dedupAll vt nurbss).verts.length).map Int.ofNat := by
  have hg := dedupAll_good vt nurbss
  obtain ⟨h1, h2, h3, h4⟩ := hg
  apply List.ext_getElem
  · simp
  · intro n hn1 hn2
    rw [List.length_map] at hn1
    have hn' : n < (dedupAll vt nurbss).vid := by rw [h1] at hn1; exact hn1
    obtain ⟨x, hx, hm, hvert⟩ := h4 n hn'
    have hv : (dedupAll vt nurbss).verts[n] =
        ⟨(n : Int), vtagLookup vt x.hash, [x.x, x.y, x.z, x.w]⟩ := by
      have := List.getElem?_eq_getElem hn1
      rw [hvert] at this
      exact Option.some.inj this.symm
    rw [List.getElem_map, hv]
    rw [List.getElem_map, List.getElem_range]
    rfl

/-! ## JSON decode/encode fidelity -/

theorem exceptBind_ok {ε α β : Type} (a : α) (f : α → Except ε β) :
    ((Except.ok a : Except ε α) >>= f) = f a := rfl

theorem jfieldD_cons_hit {α : Type} (key : String) (j : Jval) (fs : List (String × Jval))
    (dflt : α) (f : Jval → Except String α) :
    jfieldD ((key, j) :: fs) key dflt f = f j := by
  simp [jfieldD, mlookup]

theorem jfieldD_cons_miss {α : Type} (k key : String) (j : Jval) (fs : List (String × Jval))
    (dflt : α) (f : Jval → Except String α) (h : key ≠ k) :
    jfieldD ((k, j) :: fs) key dflt f = jfieldD fs key dflt f := by
  simp [jfieldD, mlookup, h]

theorem jInt_intCast (n : Int) : jInt (Jval.num (n : ℚ)) = .ok n := by
  simp [jInt, Rat.den_intCast, Rat.num_intCast]

theorem jList_map_ok {β : Type} (f : Jval → Except String β) (g : β → Jval) (l : List β)
    (h : ∀ b ∈ l, f (g b) = .ok b) : jList f (l.map g) = .ok l := by
  induction l with
  | nil => rfl
  | cons b bs ih =>
    simp only [List.map_cons, jList]
    rw [h b (by simp), exceptBind_ok, ih fun b2 hb2 => h b2 (by simp [hb2]), exceptBind_ok]

theorem jList_num_map (l : List ℚ) : jList jNum (l.map Jval.num) = .ok l :=
  jList_map_ok jNum Jval.num l fun _ _ => rfl

theorem jList_int_map (l : List Int) :
    jList jInt (l.map fun i : Int => Jval.num (i : ℚ)) = .ok l :=
  jList_map_ok jInt (fun i : Int => Jval.num (i : ℚ)) l fun b _ => jInt_intCast b

theorem unmarshalNumList_map (l : List ℚ) :
    unmarshalNumList (Jval.arr (l.map Jval.num)) = .ok l := by
  simp only [unmarshalNumList, jArr, Except.bind]
  exact jList_num_map l

theorem unmarshalIntList_map (l : List Int) :
    unmarshalIntList (Jval.arr (l.map fun i : Int => Jval.num (i : ℚ))) = .ok l := by
  simp only [unmarshalIntList, jArr, Except.bind]
  exact jList_int_map l

theorem unmarshalVert_toJson (v : Vert) : unmarshalVert v.toJson = .ok v := by
  obtain ⟨i, t, c⟩ := v
  show unmarshalVert (Jval.obj [("id", .num (i : ℚ)), ("tag", .num (t : ℚ)),
    ("c", .arr (c.map Jval.num))]) = _
  rw [unmarshalVert]
  rw [jfieldD_cons_hit, jInt_intCast, exceptBind_ok]
  rw [jfieldD_cons_miss _ _ _ _ _ _ (by decide), jfieldD_cons_hit, jInt_intCast, exceptBind_ok]
  rw [jfieldD_cons_miss _ _ _ _ _ _ (by decide), jfieldD_cons_miss _ _ _ _ _ _ (by decide),
    jfieldD_cons_hit]
  show (jArr (Jval.arr (c.map Jval.num))).bind (jList jNum) >>= _ = _
  rw [show jArr (Jval.arr (c.map Jval.num)) = .ok (c.map Jval.num) from rfl]
  show jList jNum (c.map Jval.num) >>= _ = _
  rw [jList_num_map, exceptBind_ok]

theorem unmarshalNurbsD_toJson (d : NurbsD) : unmarshalNurbsD d.toJson = .ok d := by
  obtain ⟨i, g, ords, knots, ctrls⟩ := d
  show unmarshalNurbsD (Jval.obj [("id", .num (i : ℚ)), ("gnd", .num (g : ℚ)),
    ("ords", .arr (ords.map fun n : Int => Jval.num (n : ℚ))),
    ("knots", .arr (knots.map fun ks => Jval.arr (ks.map Jval.num))),
    ("ctrls", .arr (ctrls.map fun n : Int => Jval.num (n : ℚ)))]) = _
  rw [unmarshalNurbsD]
  rw [jfieldD_cons_hit, jInt_intCast, exceptBind_ok]
  rw [jfieldD_cons_miss _ _ _ _ _ _ (by decide), jfieldD_cons_hit, jInt_intCast, exceptBind_ok]
  rw [jfieldD_cons_miss _ _ _ _ _ _ (by decide), jfieldD_cons_miss _ _ _ _ _ _ (by decide),
    jfieldD_cons_hit, unmarshalIntList_map, exceptBind_ok]
  rw [jfieldD_cons_miss _ _ _ _ _ _ (by decide), jfieldD_cons_miss _ _ _ _ _ _ (by decide),
    jfieldD_cons_miss _ _ _ _ _ _ (by decide), jfieldD_cons_hit]
  show (jArr (Jval.arr (knots.map fun ks => Jval.arr (ks.map Jval.num)))).bind
    (jList unmarshalNumList) >>= _ = _
  rw [show jArr (Jval.arr (knots.map fun ks => Jval.arr (ks.map Jval.num))) =
    .ok (knots.map fun ks => Jval.arr (ks.map Jval.num)) from rfl]
  show jList unmarshalNumList (knots.map fun ks => Jval.arr (ks.map Jval.num)) >>= _ = _
  rw [jList_map_ok unmarshalNumList _ knots fun ks _ => unmarshalNumList_map ks, exceptBind_ok]
  rw [jfieldD_cons_miss _ _ _ _ _ _ (by decide), jfieldD_cons_miss _ _ _ _ _ _ (by decide),
    jfieldD_cons_miss _ _ _ _ _ _ (by decide), jfieldD_cons_miss _ _ _ _ _ _ (by decide),
    jfieldD_cons_hit, unmarshalIntList_map, exceptBind_ok]

/-- Decoding fidelity: unmarshalling the JSON document written by the writer
recovers exactly the vertex and shape records (the `cells` section matches no
field of `Data` and is dropped). -/
theorem unmarshalData_toJson (m : Msh) :
    unmarshalData m.toJson = .ok ⟨m.Verts, m.Nurbss⟩ := by
  obtain ⟨vs, ns, cs⟩ := m
  show unmarshalData (Jval.obj [("verts", .arr (vs.map Vert.toJson)),
    ("nurbss", .arr (ns.map NurbsD.toJson)), ("cells", .arr (cs.map Cell.toJson))]) = _
  rw [unmarshalData]
  rw [jfieldD_cons_hit]
  show (jArr (Jval.arr (vs.map Vert.toJson))).bind (jList unmarshalVert) >>= _ = _
  rw [show jArr (Jval.arr (vs.map Vert.toJson)) = .ok (vs.map Vert.toJson) from rfl]
  show jList unmarshalVert (vs.map Vert.toJson) >>= _ = _
  rw [jList_map_ok unmarshalVert Vert.toJson vs fun v _ => unmarshalVert_toJson v, exceptBind_ok]
  rw [jfieldD_cons_miss _ _ _ _ _ _ (by decide), jfieldD_cons_hit]
  show (jArr (Jval.arr (ns.map NurbsD.toJson))).bind (jList unmarshalNurbsD) >>= _ = _
  rw [show jArr (Jval.arr (ns.map NurbsD.toJson)) = .ok (ns.map NurbsD.toJson) from rfl]
  show jList unmarshalNurbsD (ns.map NurbsD.toJson) >>= _ = _
  rw [jList_map_ok unmarshalNurbsD NurbsD.toJson ns fun d _ => unmarshalNurbsD_toJson d,
    exceptBind_ok]

/-! ## Reader table lemmas -/

theorem vertRow_of_ge4 {v : Vert} (h : 4 ≤ v.C.length) : vertRow v = some (v.C.take 4) := by
  obtain ⟨i, t, c⟩ := v
  simp only at h
  match c, h with
  | a :: b :: c2 :: d :: tl, _ => rfl

theorem mkVerts_of_ge4 (vs : List Vert) (h : ∀ v ∈ vs, 4 ≤ v.C.length) :
    mkVerts vs = some (vs.map fun v => v.C.take 4) := by
  induction vs with
  | nil => rfl
  | cons v rest ih =>
    simp only [mkVerts, vertRow_of_ge4 (h v (by simp)), ih fun v2 hv2 => h v2 (by simp [hv2]),
      Option.bind_eq_bind, Option.some_bind, List.map_cons]

theorem mkVerts_of_len4 (vs : List Vert) (h : ∀ v ∈ vs, v.C.length = 4) :
    mkVerts vs = some (vs.map fun v => v.C) := by
  rw [mkVerts_of_ge4 vs fun v hv => (h v hv).ge]
  congr 1
  exact List.map_congr_left fun v hv => List.take_of_length_le (h v hv).le

/-! ## Claim C8: HashPoint -/

/-- C8: `HashPoint` is a deterministic, pure, total function of exactly its
three coordinate inputs, computed as the affine combination
`x*10001 + y*1000001 + z*100000001` with the three distinct multipliers
`10001`, `1000001`, `100000001`, truncated to an integer; equal (bit-identical)
inputs give equal keys.  (Float arithmetic is modelled as exact rational
arithmetic, see the file comment.) -/
theorem hashPoint_exact_affine (x y z : ℚ) :
    HashPoint x y z = ratTrunc (x * 10001 + y * 1000001 + z * 100000001) ∧
    ((10001 : ℚ) ≠ 1000001 ∧ (10001 : ℚ) ≠ 100000001 ∧ (1000001 : ℚ) ≠ 100000001) ∧
    ∀ x2 y2 z2 : ℚ, x = x2 → y = y2 → z = z2 → HashPoint x y z = HashPoint x2 y2 z2 := by
  refine ⟨rfl, ⟨by norm_num, by norm_num, by norm_num⟩, ?_⟩
  intro x2 y2 z2 hx hy hz
  rw [hx, hy, hz]

theorem hashPoint_exact_affine_witness :
    HashPoint 1 2 3 = ratTrunc (1 * 10001 + 2 * 1000001 + 3 * 100000001) ∧
    HashPoint 1 2 3 = HashPoint 1 2 3 :=
  ⟨(hashPoint_exact_affine 1 2 3).1, (hashPoint_exact_affine 1 2 3).2.2 1 2 3 rfl rfl rfl⟩

/-! ## Claim C3: id density -/

theorem mapIdx'_shapeD_map_Id (vmap : List (Int × Int)) :
    ∀ (ns : List Nurbs) (s : Nat),
    (mapIdx' (shapeD vmap) s ns).map NurbsD.Id = (List.range' s ns.length).map Int.ofNat := by
  intro ns
  induction ns with
  | nil => intro s; rfl
  | cons o os ih =>
    intro s
    have hr : List.range' s (os.length + 1) = s :: List.range' (s + 1) os.length :=
      List.range'_succ s os.length 1
    simp only [mapIdx', List.map_cons, List.length_cons, hr, ih (s + 1)]
    rfl

/-- C3: in every document produced by `WriteMshD`, vertex ids are exactly
`0..N-1` in first-discovery order (no gaps, no duplicates), shape ids are
exactly `0..S-1` in input order, and cell ids are exactly `0..C-1` where `C`
is the sum of the element counts of all shapes, assigned by the single
counter `cid` that keeps running across shapes. -/
theorem ids_dense (nurbss : List Nurbs) (vt : Option (List (Int × Int)))
    (ct : Option (List (String × Int))) :
    (WriteMshD nurbss vt ct).Verts.map Vert.Id =
      (List.range (WriteMshD nurbss vt ct).Verts.length).map Int.ofNat ∧
    (WriteMshD nurbss vt ct).Nurbss.map NurbsD.Id =
      (List.range nurbss.length).map Int.ofNat ∧
    (WriteMshD nurbss vt ct).Cells.map Cell.Id =
      (List.range (elemsCount nurbss)).map Int.ofNat := by
  refine ⟨?_, ?_, ?_⟩
  · rw [writeMshD_Verts]
    exact dedupAll_verts_map_Id vt nurbss
  · show (mapIdx' (shapeD (dedupAll vt nurbss).vmap) 0 nurbss).map NurbsD.Id = _
    rw [mapIdx'_shapeD_map_Id, List.range_eq_range']
  · show (cellsFrom (dedupAll vt nurbss).vmap ct 0 0 nurbss).map Cell.Id = _
    rw [cellsFrom_map_Id, List.range_eq_range']

/-! ## Claim C10: the emission pass only looks up keys the sweep inserted -/

theorem mapIdx'_mem {α β : Type} (f : Nat → α → β) (s : Nat) (l : List α) {b : β}
    (hb : b ∈ mapIdx' f s l) : ∃ i, ∃ h : i < l.length, b = f (s + i) l[i] := by
  obtain ⟨n, hn, hget⟩ := List.getElem_of_mem hb
  have hn' : n < l.length := by rw [mapIdx'_length] at hn; exact hn
  refine ⟨n, hn', ?_⟩
  have h? := mapIdx'_getElem? f s l n
  rw [List.getElem?_eq_getElem hn, List.getElem?_eq_getElem hn'] at h?
  have := Option.some.inj h?
  rw [← hget, this]

/-- C10: every key looked up in the key-to-id map `verts` during the
control-id emission pass (io.go lines 77-91) was inserted during the
deduplication sweep (io.go lines 31-54) — both passes traverse the identical
lattice point sequence — so the lookup never falls through to the Go map's
zero default: every emitted control id is an id carried by a vertex record of
the same document. -/
theorem ctrls_lookup_total (nurbss : List Nurbs) (vt : Option (List (Int × Int)))
    (ct : Option (List (String × Int))) (o : Nurbs) (ho : o ∈ nurbss)
    (i j k : Nat) (hi : i < o.nof 0) (hj : j < o.nof 1) (hk : k < o.nof 2) :
    (∃ v, mlookup (dedupAll vt nurbss).vmap (o.Q i j k).hash = some v) ∧
    ∀ s, s ∈ (WriteMshD nurbss vt ct).Nurbss → ∀ c, c ∈ s.Ctrls →
      c ∈ (WriteMshD nurbss vt ct).Verts.map Vert.Id := by
  constructor
  · exact dedupAll_covers (mem_allPoints ho (mem_latticePoints o i j k hi hj hk))
  · intro s hs c hc
    obtain ⟨a, ha, hseq⟩ := mapIdx'_mem (shapeD (dedupAll vt nurbss).vmap) 0 nurbss hs
    subst hseq
    simp only [shapeD, Nurbs.latticePoints, List.mem_map] at hc
    obtain ⟨xq, hxq, hceq⟩ := hc
    obtain ⟨t, ht, hteq⟩ := hxq
    have hxmem : xq ∈ nurbss[a].latticePoints := by
      rw [Nurbs.latticePoints]
      exact List.mem_map.2 ⟨t, ht, hteq⟩
    have hall : xq ∈ allPoints nurbss := mem_allPoints (List.getElem_mem ha) hxmem
    obtain ⟨v, hv⟩ := @dedupAll_covers vt _ _ hall
    obtain ⟨n, hn, hveq, _, _⟩ := goodSt_lookup (dedupAll_good vt nurbss) hv
    rw [writeMshD_Verts, dedupAll_verts_map_Id]
    rw [← hceq, hv]
    simp only [Option.getD_some, hveq]
    have hlen : n < (dedupAll vt nurbss).verts.length := by
      have h1 := (dedupAll_good vt nurbss).1
      omega
    exact List.mem_map.2 ⟨n, List.mem_range.2 hlen, rfl⟩

/-! ## Claim C6: traversal order and controlIds length -/

/-- C6: for every shape, the emitted `ctrls` list enumerates the control
lattice with the outer loop over axis 2, then axis 1, then axis 0 innermost
(the entry at flat position `i + n0*(j + n1*k)` belongs to lattice index
`(i,j,k)`, so the axis-0 index varies fastest); it is obtained by looking up,
in the map built by the deduplication sweep over the same lattice sequence,
the key of each point; and its length is the product `n0*n1*n2` of the
per-axis control counts. -/
theorem ctrls_traversal_order (nurbss : List Nurbs) (vt : Option (List (Int × Int)))
    (ct : Option (List (String × Int))) (a : Nat) (ha : a < nurbss.length) :
    ∃ s, (WriteMshD nurbss vt ct).Nurbss[a]? = some s ∧
      s.Ctrls = nurbss[a].latticePoints.map
        (fun xq => (mlookup (dedupAll vt nurbss).vmap xq.hash).getD 0) ∧
      s.Ctrls.length = nurbss[a].nof 0 * nurbss[a].nof 1 * nurbss[a].nof 2 ∧
      ∀ i j k, i < nurbss[a].nof 0 → j < nurbss[a].nof 1 → k < nurbss[a].nof 2 →
        s.Ctrls[i + nurbss[a].nof 0 * (j + nurbss[a].nof 1 * k)]? =
          some ((mlookup (dedupAll vt nurbss).vmap (nurbss[a].Q i j k).hash).getD 0) := by
  refine ⟨shapeD (dedupAll vt nurbss).vmap a nurbss[a], ?_, rfl, ?_, ?_⟩
  · rw [writeMshD_Nurbss_getElem?, List.getElem?_eq_getElem ha]
    rfl
  · show (nurbss[a].latticePoints.map _).length = _
    rw [List.length_map, latticePoints_length]
  · intro i j k hi hj hk
    show (nurbss[a].latticePoints.map _)[_]? = _
    rw [List.getElem?_map, latticePoints_getElem?_enc nurbss[a] i j k hi hj hk]
    rfl

/-! ## Claim C7: default tagging -/

/-- A default shape record, used only for total list access in statements. -/
def dfltNurbsD : NurbsD := ⟨0, 0, [], [], []⟩

/-- C7: a vertex whose key is missing from the point-tag table — or written
with no table at all — carries tag `0`, and a supplied tag is emitted as
given; a cell whose composite key `"sid_eid"` is missing from the cell-tag
table — or written with no table — carries tag `-1`, and a supplied tag is
emitted as given. -/
theorem default_tags (nurbss : List Nurbs) (vt : Option (List (Int × Int)))
    (ct : Option (List (String × Int))) :
    (∀ v, v ∈ (WriteMshD nurbss vt ct).Verts →
      (vt = none → v.Tag = 0) ∧
      ∀ tbl, vt = some tbl →
        (mlookup tbl (HashPoint (v.C.getD 0 0) (v.C.getD 1 0) (v.C.getD 2 0)) = none →
          v.Tag = 0) ∧
        ∀ t, mlookup tbl (HashPoint (v.C.getD 0 0) (v.C.getD 1 0) (v.C.getD 2 0)) = some t →
          v.Tag = t) ∧
    ∀ a e : Nat, ∀ ha : a < nurbss.length, e < nurbss[a].elems.length →
      ∃ c, (WriteMshD nurbss vt ct).Cells[elemsCount (nurbss.take a) + e]? = some c ∧
        c.Nrb = (a : Int) ∧
        (ct = none → c.Tag = -1) ∧
        ∀ tbl, ct = some tbl →
          (mlookup tbl (cellKey a e) = none → c.Tag = -1) ∧
          ∀ t, mlookup tbl (cellKey a e) = some t → c.Tag = t := by
  constructor
  · intro v hv
    rw [writeMshD_Verts] at hv
    obtain ⟨x, hx, hC, hTag⟩ := dedupAll_verts_mem vt nurbss hv
    have hkey : HashPoint (v.C.getD 0 0) (v.C.getD 1 0) (v.C.getD 2 0) = x.hash := by
      rw [hC]
      rfl
    rw [hkey]
    constructor
    · intro hnone
      rw [hTag, hnone, vtagLookup]
    · intro tbl htbl
      constructor
      · intro hmiss
        rw [hTag, htbl, vtagLookup, hmiss]
      · intro t hhit
        rw [hTag, htbl, vtagLookup, hhit]
  · intro a e ha he
    have hcell := cellsFrom_getElem? (dedupAll vt nurbss).vmap ct nurbss 0 0 a e ha he
    refine ⟨mkCell (dedupAll vt nurbss).vmap ct (0 + a)
      (0 + elemsCount (nurbss.take a) + e) e nurbss[a] (nurbss[a].elems[e]), ?_, ?_, ?_, ?_⟩
    · show (cellsFrom (dedupAll vt nurbss).vmap ct 0 0 nurbss)[elemsCount (nurbss.take a) + e]? = _
      rw [hcell]
    · show (mkCell _ ct (0 + a) _ e nurbss[a] _).Nrb = (a : Int)
      simp [mkCell]
    · intro hnone
      show (mkCell _ ct (0 + a) _ e nurbss[a] _).Tag = -1
      simp only [mkCell, hnone, ctagLookup]
    · intro tbl htbl
      constructor
      · intro hmiss
        show (mkCell _ ct (0 + a) _ e nurbss[a] _).Tag = -1
        simp only [mkCell, htbl, ctagLookup, Nat.zero_add, hmiss]
      · intro t hhit
        show (mkCell _ ct (0 + a) _ e nurbss[a] _).Tag = t
        simp only [mkCell, htbl, ctagLookup, Nat.zero_add, hhit]

/-! ## Claim C2: equal keys get equal ids, distinct keys get distinct ids -/

/-- C2: in every document produced by `WriteMshD`, the control id emitted for
the lattice point `(i,j,k)` of shape `a` equals the one emitted for
`(i2,j2,k2)` of shape `b` exactly when the two points have the same
`HashPoint` key — equal keys always resolve to the same vertex id, no matter
which shape or lattice position referenced them first, and distinct keys
always receive distinct ids. -/
theorem dedup_key_iff_id (nurbss : List Nurbs) (vt : Option (List (Int × Int)))
    (ct : Option (List (String × Int))) (a b i j k i2 j2 k2 : Nat)
    (ha : a < nurbss.length) (hb : b < nurbss.length)
    (hi : i < nurbss[a].nof 0) (hj : j < nurbss[a].nof 1) (hk : k < nurbss[a].nof 2)
    (hi2 : i2 < nurbss[b].nof 0) (hj2 : j2 < nurbss[b].nof 1) (hk2 : k2 < nurbss[b].nof 2) :
    (((WriteMshD nurbss vt ct).Nurbss.getD a dfltNurbsD).Ctrls.getD
        (i + nurbss[a].nof 0 * (j + nurbss[a].nof 1 * k)) 0 =
      ((WriteMshD nurbss vt ct).Nurbss.getD b dfltNurbsD).Ctrls.getD
        (i2 + nurbss[b].nof 0 * (j2 + nurbss[b].nof 1 * k2)) 0) ↔
    (nurbss[a].Q i j k).hash = (nurbss[b].Q i2 j2 k2).hash := by
  have hsa : (WriteMshD nurbss vt ct).Nurbss.getD a dfltNurbsD =
      shapeD (dedupAll vt nurbss).vmap a nurbss[a] := by
    rw [List.getD_eq_getElem?_getD, writeMshD_Nurbss_getElem?, List.getElem?_eq_getElem ha]
    rfl
  have hsb : (WriteMshD nurbss vt ct).Nurbss.getD b dfltNurbsD =
      shapeD (dedupAll vt nurbss).vmap b nurbss[b] := by
    rw [List.getD_eq_getElem?_getD, writeMshD_Nurbss_getElem?, List.getElem?_eq_getElem hb]
    rfl
  have hga : ((WriteMshD nurbss vt ct).Nurbss.getD a dfltNurbsD).Ctrls.getD
      (i + nurbss[a].nof 0 * (j + nurbss[a].nof 1 * k)) 0 =
      (mlookup (dedupAll vt nurbss).vmap (nurbss[a].Q i j k).hash).getD 0 := by
    rw [hsa]
    show (nurbss[a].latticePoints.map _).getD _ 0 = _
    rw [List.getD_eq_getElem?_getD, List.getElem?_map,
      latticePoints_getElem?_enc nurbss[a] i j k hi hj hk]
    rfl
  have hgb : ((WriteMshD nurbss vt ct).Nurbss.getD b dfltNurbsD).Ctrls.getD
      (i2 + nurbss[b].nof 0 * (j2 + nurbss[b].nof 1 * k2)) 0 =
      (mlookup (dedupAll vt nurbss).vmap (nurbss[b].Q i2 j2 k2).hash).getD 0 := by
    rw [hsb]
    show (nurbss[b].latticePoints.map _).getD _ 0 = _
    rw [List.getD_eq_getElem?_getD, List.getElem?_map,
      latticePoints_getElem?_enc nurbss[b] i2 j2 k2 hi2 hj2 hk2]
    rfl
  rw [hga, hgb]
  obtain ⟨v1, hv1⟩ := @dedupAll_covers vt _ _
    (mem_allPoints (List.getElem_mem ha) (mem_latticePoints nurbss[a] i j k hi hj hk))
  obtain ⟨v2, hv2⟩ := @dedupAll_covers vt _ _
    (mem_allPoints (List.getElem_mem hb) (mem_latticePoints nurbss[b] i2 j2 k2 hi2 hj2 hk2))
  rw [hv1, hv2]
  simp only [Option.getD_some]
  constructor
  · intro hveq
    by_contra hne
    exact goodSt_inj (dedupAll_good vt nurbss) hne hv1 hv2 hveq
  · intro hkeq
    rw [hkeq] at hv1
    rw [hv1] at hv2
    exact Option.some.inj hv2

/-! ## Claims C9, C4, C5: reader behavior -/

theorem readMsh_valid_eq (fnk : String) (j : Jval) :
    ReadMsh fnk (.valid j) =
      match unmarshalData j with
      | .error msg => .panicErr (ioErr2 (fnk ++ ".msh") msg)
      | .ok dat =>
        match mkVerts dat.Verts with
        | none => .oobPanic
        | some verts => .ok (dat.Nurbss.map (reconstruct verts)) := rfl

/-- A document whose single vertex record has only two coordinates. -/
def shortVertDoc : Jval := Jval.obj [("verts", Jval.arr [Vert.toJson ⟨0, 0, [1, 2]⟩])]

/-- C9: `ReadMsh` reads the first four entries of every decoded vertex's
coordinate array unconditionally (io.go lines 176-179): when every vertex has
at least four coordinates the accesses are in bounds and the table is built;
for a document containing a vertex with fewer than four coordinates the
access is an out-of-range runtime panic, not a reported decode failure. -/
theorem readMsh_reads_four_coords (dat : Data)
    (h : ∀ v ∈ dat.Verts, 4 ≤ v.C.length) :
    (∃ rows, mkVerts dat.Verts = some rows) ∧
    ReadMsh "f" (.valid shortVertDoc) = .oobPanic := by
  refine ⟨⟨dat.Verts.map fun v => v.C.take 4, mkVerts_of_ge4 dat.Verts h⟩, ?_⟩
  rfl

theorem readMsh_reads_four_coords_witness :
    (∀ v ∈ (⟨[⟨0, 0, [1, 2, 3, 4]⟩], []⟩ : Data).Verts, 4 ≤ v.C.length) ∧
    ((∃ rows, mkVerts (⟨[⟨0, 0, [1, 2, 3, 4]⟩], []⟩ : Data).Verts = some rows) ∧
      ReadMsh "f" (.valid shortVertDoc) = .oobPanic) := by
  have h : ∀ v ∈ (⟨[⟨0, 0, [1, 2, 3, 4]⟩], []⟩ : Data).Verts, 4 ≤ v.C.length := by decide
  exact ⟨h, readMsh_reads_four_coords _ h⟩

/-- C4 counterexample: a well-formed JSON document that merely lacks the
`nurbss` field is NOT rejected: `json.Unmarshal` leaves the missing field as
the zero value (nil slice), so `ReadMsh` succeeds and returns the empty
object list instead of failing with a decode error. -/
theorem readMsh_missing_nurbss_returns_ok :
    ReadMsh "f" (.valid (Jval.obj [("verts", Jval.arr [])])) = .ok [] := rfl

/-- C4 amended: a file that fails JSON decoding makes `ReadMsh` fail with the
decode-failure message naming the file (and an unreadable file with the
read-failure message), with no objects returned; but a well-formed document
missing the `nurbss` field is decoded with the field at its zero value, so
`ReadMsh` succeeds and returns an empty object list. -/
theorem readMsh_decode_failure_behavior (fnk msg : String) (vs : List Vert)
    (h : ∀ v ∈ vs, 4 ≤ v.C.length) :
    ReadMsh fnk (.invalid msg) =
      .panicErr ("ReadMsh cannot unmarshal file = " ++ (fnk ++ ".msh") ++ ", " ++ msg) ∧
    ReadMsh fnk (.absent msg) =
      .panicErr ("ReadMsh cannot read file = " ++ (fnk ++ ".msh") ++ ", " ++ msg) ∧
    ReadMsh fnk (.valid (Jval.obj [("verts", Jval.arr (vs.map Vert.toJson))])) = .ok [] := by
  refine ⟨rfl, rfl, ?_⟩
  have hun : unmarshalData (Jval.obj [("verts", Jval.arr (vs.map Vert.toJson))]) =
      .ok ⟨vs, []⟩ := by
    rw [unmarshalData]
    rw [jfieldD_cons_hit]
    show (jArr (Jval.arr (vs.map Vert.toJson))).bind (jList unmarshalVert) >>= _ = _
    rw [show jArr (Jval.arr (vs.map Vert.toJson)) = .ok (vs.map Vert.toJson) from rfl]
    show jList unmarshalVert (vs.map Vert.toJson) >>= _ = _
    rw [jList_map_ok unmarshalVert Vert.toJson vs fun v _ => unmarshalVert_toJson v,
      exceptBind_ok]
    rfl
  rw [readMsh_valid_eq, hun]
  show (match mkVerts vs with
    | none => GoResult.oobPanic
    | some verts => GoResult.ok (([] : List NurbsD).map (reconstruct verts))) = GoResult.ok []
  rw [mkVerts_of_ge4 vs h]
  rfl

theorem readMsh_decode_failure_behavior_witness :
    ReadMsh "f" (.invalid "m") =
      .panicErr ("ReadMsh cannot unmarshal file = " ++ ("f" ++ ".msh") ++ ", " ++ "m") ∧
    ReadMsh "f" (.absent "m") =
      .panicErr ("ReadMsh cannot read file = " ++ ("f" ++ ".msh") ++ ", " ++ "m") ∧
    ReadMsh "f" (.valid (Jval.obj [("verts",
      Jval.arr ([(⟨0, 0, [1, 2, 3, 4]⟩ : Vert)].map Vert.toJson))])) = .ok [] :=
  readMsh_decode_failure_behavior "f" "m" [⟨0, 0, [1, 2, 3, 4]⟩] (by decide)

/-- C5 counterexample: a document whose single vertex carries the
non-contiguous id `5` is silently accepted — `ReadMsh` succeeds, and the
coordinate table stores the vertex's coordinates at list position `0`, not at
the stated id. -/
theorem readMsh_noncontiguous_ids_accepted :
    ReadMsh "f" (.valid (Jval.obj [("verts", Jval.arr [Vert.toJson ⟨5, 0, [1, 2, 3, 4]⟩]),
      ("nurbss", Jval.arr [])])) = .ok [] ∧
    mkVerts [⟨5, 0, [1, 2, 3, 4]⟩] = some [[1, 2, 3, 4]] := ⟨rfl, rfl⟩

/-- C5 amended: `ReadMsh` builds the flat coordinate table by list position
and ignores the `Id` field entirely: the table row `i` is the first four
coordinates of the `i`-th record, and rewriting every vertex id through an
arbitrary function — in particular to any non-contiguous values — changes
neither the table nor `ReadMsh`'s result; no contiguity check exists and no
failure occurs. -/
theorem readMsh_table_positional (vs : List Vert) (f : Vert → Int)
    (h : ∀ v ∈ vs, 4 ≤ v.C.length) :
    mkVerts vs = some (vs.map fun v => v.C.take 4) ∧
    mkVerts (vs.map fun v => ⟨f v, v.Tag, v.C⟩) = mkVerts vs ∧
    ∀ (fnk : String) (ns : List NurbsD) (cs : List Cell),
      ReadMsh fnk (.valid (Msh.toJson ⟨vs.map fun v => ⟨f v, v.Tag, v.C⟩, ns, cs⟩)) =
      ReadMsh fnk (.valid (Msh.toJson ⟨vs, ns, cs⟩)) := by
  have h2 : ∀ v ∈ vs.map fun v => (⟨f v, v.Tag, v.C⟩ : Vert), 4 ≤ v.C.length := by
    intro v hv
    obtain ⟨w, hw, hweq⟩ := List.mem_map.1 hv
    rw [← hweq]
    exact h w hw
  have hsame : mkVerts (vs.map fun v => ⟨f v, v.Tag, v.C⟩) = mkVerts vs := by
    rw [mkVerts_of_ge4 _ h2, mkVerts_of_ge4 vs h, List.map_map]
    rfl
  refine ⟨mkVerts_of_ge4 vs h, hsame, ?_⟩
  intro fnk ns cs
  rw [readMsh_valid_eq, readMsh_valid_eq, unmarshalData_toJson, unmarshalData_toJson]
  show (match mkVerts (vs.map fun v => ⟨f v, v.Tag, v.C⟩) with
    | none => GoResult.oobPanic
    | some verts => GoResult.ok (ns.map (reconstruct verts))) = _
  rw [hsame]

theorem readMsh_table_positional_witness :
    (∀ v ∈ [(⟨7, 0, [1, 2, 3, 4]⟩ : Vert)], 4 ≤ v.C.length) ∧
    (mkVerts [(⟨7, 0, [1, 2, 3, 4]⟩ : Vert)] =
      some ([(⟨7, 0, [1, 2, 3, 4]⟩ : Vert)].map fun v => v.C.take 4) ∧
    mkVerts ([(⟨7, 0, [1, 2, 3, 4]⟩ : Vert)].map fun v => (⟨v.Id + 5, v.Tag, v.C⟩ : Vert)) =
      mkVerts [(⟨7, 0, [1, 2, 3, 4]⟩ : Vert)] ∧
    ∀ (fnk : String) (ns : List NurbsD) (cs : List Cell),
      ReadMsh fnk (.valid (Msh.toJson
        ⟨[(⟨7, 0, [1, 2, 3, 4]⟩ : Vert)].map fun v => (⟨v.Id + 5, v.Tag, v.C⟩ : Vert), ns, cs⟩)) =
      ReadMsh fnk (.valid (Msh.toJson ⟨[(⟨7, 0, [1, 2, 3, 4]⟩ : Vert)], ns, cs⟩))) :=
  ⟨by decide, readMsh_table_positional [(⟨7, 0, [1, 2, 3, 4]⟩ : Vert)]
    (fun v => v.Id + 5) (by decide)⟩

/-! ## Concrete evaluation helpers for witnesses and counterexamples -/

theorem hashPoint_000 : HashPoint 0 0 0 = 0 := by
  have hsum : (0 : ℚ) * 10001 + 0 * 1000001 + 0 * 100000001 = 0 := by norm_num
  rw [HashPoint, hsum]
  rfl

theorem hashPoint_200 : HashPoint 2 0 0 = 20002 := by
  have hsum : (2 : ℚ) * 10001 + 0 * 1000001 + 0 * 100000001 = 20002 := by norm_num
  rw [HashPoint, hsum]
  rw [show ratTrunc (20002 : ℚ) = (20002 : Int).tdiv (((20002 : ℚ).den : Int)) from rfl]
  norm_num [Rat.den_ofNat]

theorem hashPoint_coll : HashPoint (mkRat 1 20000) 0 0 = 0 := by
  have hsum : (mkRat 1 20000 : ℚ) * 10001 + 0 * 1000001 + 0 * 100000001 =
      mkRat 10001 20000 := by
    rw [Rat.mkRat_eq_div, Rat.mkRat_eq_div]
    norm_num
  rw [HashPoint, hsum]
  decide

/-- A one-dimensional shape with two distinct control points (and distinct
keys), one element and its two local nodes: the running example for the
witnesses. -/
def wShape : Nurbs :=
  { gnd := 1, p0 := 1, p1 := 0, p2 := 0, T := [[0, 0, 1, 1]]
    Q := fun i _ _ => if i = 0 then ⟨0, 0, 0, 1⟩ else ⟨2, 0, 0, 1⟩
    elems := [[0]], enodes := [[0, 1]] }

theorem wShape_latticePoints : wShape.latticePoints = [⟨0, 0, 0, 1⟩, ⟨2, 0, 0, 1⟩] := rfl

/-- A point-tag table holding the key of `wShape`'s first point, and a
cell-tag table holding the composite key of its only element. -/
def wVt : List (Int × Int) := [(0, 7)]

def wCt : List (String × Int) := [("0_0", 9)]

theorem wShape_dedup_eq :
    dedupAll (some wVt) [wShape] =
      ⟨[⟨0, 7, [0, 0, 0, 1]⟩, ⟨1, 0, [2, 0, 0, 1]⟩], [(0, 0), (20002, 1)], 2⟩ := by
  simp only [dedupAll, dedupShapes, dedupFold, wShape_latticePoints, List.foldl_cons,
    List.foldl_nil, dedupPoint, Vec4.hash, hashPoint_000, hashPoint_200, mlookup,
    vtagLookup, wVt]
  simp +decide

theorem wShape_doc_eq :
    WriteMshD [wShape] (some wVt) (some wCt) =
      ⟨[⟨0, 7, [0, 0, 0, 1]⟩, ⟨1, 0, [2, 0, 0, 1]⟩],
       [⟨0, 1, [1, 0, 0], [[0, 0, 1, 1]], [0, 1]⟩],
       [⟨0, 9, 0, 0, 18, [0], [0, 1]⟩]⟩ := by
  simp only [WriteMshD, wShape_dedup_eq]
  refine congrArg₂ (Msh.mk _) ?_ ?_
  · simp only [mapIdx', shapeD, wShape_latticePoints, List.map_cons, List.map_nil,
      Vec4.hash, hashPoint_000, hashPoint_200, mlookup]
    simp +decide [wShape]
  · simp only [cellsFrom, cellsShape, mkCell, cellKey, ctagLookup, wCt, mlookup, Nurbs.Ql,
      Vec4.hash]
    simp +decide [wShape, hashPoint_000, hashPoint_200, mlookup]

theorem dedup_key_iff_id_witness :
    0 < [wShape].length ∧
    ((((WriteMshD [wShape] (some wVt) (some wCt)).Nurbss.getD 0 dfltNurbsD).Ctrls.getD
        (0 + [wShape][0].nof 0 * (0 + [wShape][0].nof 1 * 0)) 0 =
      ((WriteMshD [wShape] (some wVt) (some wCt)).Nurbss.getD 0 dfltNurbsD).Ctrls.getD
        (1 + [wShape][0].nof 0 * (0 + [wShape][0].nof 1 * 0)) 0) ↔
      ([wShape][0].Q 0 0 0).hash = ([wShape][0].Q 1 0 0).hash) :=
  ⟨by decide, dedup_key_iff_id [wShape] (some wVt) (some wCt) 0 0 0 0 0 1 0 0
    (by decide) (by decide) (by decide) (by decide) (by decide)
    (by decide) (by decide) (by decide)⟩

theorem ctrls_traversal_order_witness :
    0 < [wShape].length ∧
    (∃ s, (WriteMshD [wShape] (some wVt) (some wCt)).Nurbss[0]? = some s ∧
      s.Ctrls = [wShape][0].latticePoints.map
        (fun xq => (mlookup (dedupAll (some wVt) [wShape]).vmap xq.hash).getD 0) ∧
      s.Ctrls.length = [wShape][0].nof 0 * [wShape][0].nof 1 * [wShape][0].nof 2 ∧
      ∀ i j k, i < [wShape][0].nof 0 → j < [wShape][0].nof 1 → k < [wShape][0].nof 2 →
        s.Ctrls[i + [wShape][0].nof 0 * (j + [wShape][0].nof 1 * k)]? =
          some ((mlookup (dedupAll (some wVt) [wShape]).vmap
            ([wShape][0].Q i j k).hash).getD 0)) :=
  ⟨by decide, ctrls_traversal_order [wShape] (some wVt) (some wCt) 0 (by decide)⟩

theorem ctrls_lookup_total_witness :
    wShape ∈ [wShape] ∧ 0 < wShape.nof 0 ∧ 0 < wShape.nof 1 ∧ 0 < wShape.nof 2 ∧
    ((∃ v, mlookup (dedupAll (some wVt) [wShape]).vmap (wShape.Q 0 0 0).hash = some v) ∧
      ∀ s, s ∈ (WriteMshD [wShape] (some wVt) (some wCt)).Nurbss → ∀ c, c ∈ s.Ctrls →
        c ∈ (WriteMshD [wShape] (some wVt) (some wCt)).Verts.map Vert.Id) :=
  ⟨by simp, by decide, by decide, by decide,
    ctrls_lookup_total [wShape] (some wVt) (some wCt) wShape (by simp) 0 0 0
      (by decide) (by decide) (by decide)⟩

theorem default_tags_witness :
    ((⟨0, 7, [0, 0, 0, 1]⟩ : Vert) ∈ (WriteMshD [wShape] (some wVt) (some wCt)).Verts) ∧
    ((⟨0, 7, [0, 0, 0, 1]⟩ : Vert).Tag = 7) ∧
    ((⟨1, 0, [2, 0, 0, 1]⟩ : Vert) ∈ (WriteMshD [wShape] (some wVt) (some wCt)).Verts) ∧
    ((⟨1, 0, [2, 0, 0, 1]⟩ : Vert).Tag = 0) ∧
    0 < [wShape].length ∧ 0 < [wShape][0].elems.length ∧
    (∃ c, (WriteMshD [wShape] (some wVt) (some wCt)).Cells[elemsCount ([wShape].take 0) + 0]? =
      some c ∧ c.Tag = 9) := by
  have hv1 : (⟨0, 7, [0, 0, 0, 1]⟩ : Vert) ∈ (WriteMshD [wShape] (some wVt) (some wCt)).Verts := by
    rw [wShape_doc_eq]
    decide
  have hv2 : (⟨1, 0, [2, 0, 0, 1]⟩ : Vert) ∈ (WriteMshD [wShape] (some wVt) (some wCt)).Verts := by
    rw [wShape_doc_eq]
    decide
  obtain ⟨hverts, hcells⟩ := default_tags [wShape] (some wVt) (some wCt)
  have ht1 := ((hverts _ hv1).2 wVt rfl).2 7 (by
    show mlookup wVt (HashPoint 0 0 0) = some 7
    rw [hashPoint_000]
    decide)
  have ht2 := ((hverts _ hv2).2 wVt rfl).1 (by
    show mlookup wVt (HashPoint 2 0 0) = none
    rw [hashPoint_200]
    decide)
  obtain ⟨c, hc, hnrb, hct⟩ := hcells 0 0 (by decide) (by decide)
  have htag9 : c.Tag = 9 := (hct.2 wCt rfl).2 9 (by decide)
  exact ⟨hv1, ht1, hv2, ht2, by decide, by decide, c, hc, htag9⟩

/-! ## Claim C1: round trip -/

theorem range_map_getD {α : Type} (l : List α) (dflt : α) :
    (List.range l.length).map (fun i => l.getD i dflt) = l := by
  apply List.ext_getElem
  · simp
  · intro n h1 h2
    rw [List.getElem_map, List.getElem_range, List.getD_eq_getElem?_getD,
      List.getElem?_eq_getElem h2]
    rfl

/-- C1 amended: for every list of shapes whose knot lists carry one knot
vector per axis and whose control points are key-injective — distinct control
points never share a `HashPoint` key, the hypothesis the exact-key
deduplication needs — writing the document with `WriteMshD` and re-reading it
with `ReadMsh` yields one reconstructed object per input shape, in the
original order, with the same dimension, the same three orders, the same knot
vectors and the same four control-point coordinates at every lattice index
(exactly: serialization is modelled as exact, see the file comment). -/
theorem write_read_roundtrip (nurbss : List Nurbs) (vt : Option (List (Int × Int)))
    (ct : Option (List (String × Int))) (fnk : String)
    (hT : ∀ o ∈ nurbss, o.T.length = o.gnd)
    (hinj : ∀ x ∈ allPoints nurbss, ∀ y ∈ allPoints nurbss, x.hash = y.hash → x = y) :
    ∃ objs : List Nurbs,
      ReadMsh fnk (.valid (WriteMshD nurbss vt ct).toJson) = .ok objs ∧
      objs.length = nurbss.length ∧
      ∀ a, ∀ ha : a < nurbss.length, ∀ robj, objs[a]? = some robj →
        robj.gnd = nurbss[a].gnd ∧ robj.p0 = nurbss[a].p0 ∧ robj.p1 = nurbss[a].p1 ∧
        robj.p2 = nurbss[a].p2 ∧ robj.T = nurbss[a].T ∧
        ∀ i j k, i < nurbss[a].nof 0 → j < nurbss[a].nof 1 → k < nurbss[a].nof 2 →
          robj.Q i j k = nurbss[a].Q i j k := by
  have hg := dedupAll_good vt nurbss
  have hlen4 : ∀ v ∈ (WriteMshD nurbss vt ct).Verts, v.C.length = 4 := by
    intro v hv
    rw [writeMshD_Verts] at hv
    obtain ⟨x, _, hC, _⟩ := dedupAll_verts_mem vt nurbss hv
    rw [hC]
    rfl
  have hmk : mkVerts (WriteMshD nurbss vt ct).Verts =
      some ((WriteMshD nurbss vt ct).Verts.map fun v => v.C) := mkVerts_of_len4 _ hlen4
  refine ⟨(WriteMshD nurbss vt ct).Nurbss.map
    (reconstruct ((WriteMshD nurbss vt ct).Verts.map fun v => v.C)), ?_, ?_, ?_⟩
  · rw [readMsh_valid_eq, unmarshalData_toJson]
    show (match mkVerts (WriteMshD nurbss vt ct).Verts with
      | none => GoResult.oobPanic
      | some verts => GoResult.ok ((WriteMshD nurbss vt ct).Nurbss.map (reconstruct verts)))
      = _
    rw [hmk]
  · rw [List.length_map]
    show (mapIdx' _ 0 nurbss).length = _
    rw [mapIdx'_length]
  · intro a ha robj hrobj
    rw [List.getElem?_map, writeMshD_Nurbss_getElem?, List.getElem?_eq_getElem ha] at hrobj
    have hre : robj = reconstruct ((WriteMshD nurbss vt ct).Verts.map fun v => v.C)
        (shapeD (dedupAll vt nurbss).vmap a nurbss[a]) := (Option.some.inj hrobj).symm
    subst hre
    have hknots : (shapeD (dedupAll vt nurbss).vmap a nurbss[a]).Knots = nurbss[a].T := by
      show (List.range nurbss[a].gnd).map (fun d => nurbss[a].T.getD d []) = _
      rw [← hT _ (List.getElem_mem ha)]
      exact range_map_getD _ _
    have hgnd : (shapeD (dedupAll vt nurbss).vmap a nurbss[a]).Gnd.toNat = nurbss[a].gnd :=
      Int.toNat_natCast _
    have hnofD : ∀ d, d < 3 →
        nofD ((shapeD (dedupAll vt nurbss).vmap a nurbss[a]).Gnd.toNat)
          ((shapeD (dedupAll vt nurbss).vmap a nurbss[a]).Ords)
          ((shapeD (dedupAll vt nurbss).vmap a nurbss[a]).Knots) d = nurbss[a].nof d := by
      intro d hd
      rw [nofD, Nurbs.nof, hknots, hgnd]
      have hord : (((shapeD (dedupAll vt nurbss).vmap a nurbss[a]).Ords.getD d 0)).toNat =
          nurbss[a].ordOf d := by
        match d, hd with
        | 0, _ => exact Int.toNat_natCast _
        | 1, _ => exact Int.toNat_natCast _
        | 2, _ => exact Int.toNat_natCast _
      rw [hord]
    refine ⟨hgnd, Int.toNat_natCast _, Int.toNat_natCast _, Int.toNat_natCast _, hknots,
      ?_⟩
    intro i j k hi hj hk
    have hQdef : (reconstruct ((WriteMshD nurbss vt ct).Verts.map fun v => v.C)
        (shapeD (dedupAll vt nurbss).vmap a nurbss[a])).Q i j k =
        (⟨(((WriteMshD nurbss vt ct).Verts.map fun v => v.C).getD
            (((shapeD (dedupAll vt nurbss).vmap a nurbss[a]).Ctrls.getD
              (i + nofD ((shapeD (dedupAll vt nurbss).vmap a nurbss[a]).Gnd.toNat)
                ((shapeD (dedupAll vt nurbss).vmap a nurbss[a]).Ords)
                ((shapeD (dedupAll vt nurbss).vmap a nurbss[a]).Knots) 0 *
                (j + nofD ((shapeD (dedupAll vt nurbss).vmap a nurbss[a]).Gnd.toNat)
                  ((shapeD (dedupAll vt nurbss).vmap a nurbss[a]).Ords)
                  ((shapeD (dedupAll vt nurbss).vmap a nurbss[a]).Knots) 1 * k)) 0).toNat)
            []).getD 0 0, _, _, _⟩ : Vec4) := rfl
    rw [hQdef, hnofD 0 (by omega), hnofD 1 (by omega)]
    have hctrl : (shapeD (dedupAll vt nurbss).vmap a nurbss[a]).Ctrls.getD
        (i + nurbss[a].nof 0 * (j + nurbss[a].nof 1 * k)) 0 =
        (mlookup (dedupAll vt nurbss).vmap (nurbss[a].Q i j k).hash).getD 0 := by
      show (nurbss[a].latticePoints.map _).getD _ 0 = _
      rw [List.getD_eq_getElem?_getD, List.getElem?_map,
        latticePoints_getElem?_enc nurbss[a] i j k hi hj hk]
      rfl
    rw [hctrl]
    have hmemQ : nurbss[a].Q i j k ∈ allPoints nurbss :=
      mem_allPoints (List.getElem_mem ha) (mem_latticePoints nurbss[a] i j k hi hj hk)
    obtain ⟨v, hv⟩ := @dedupAll_covers vt _ _ hmemQ
    obtain ⟨n, hn, hveq, hmapn, x, hxall, hxh, hvertn⟩ := goodSt_lookup hg hv
    have hx : x = nurbss[a].Q i j k := hinj x hxall _ hmemQ hxh
    have hrow : ((WriteMshD nurbss vt ct).Verts.map fun v => v.C).getD n [] =
        [x.x, x.y, x.z, x.w] := by
      rw [List.getD_eq_getElem?_getD, writeMshD_Verts, List.getElem?_map, hvertn]
      rfl
    rw [hv]
    simp only [Option.getD_some, hveq, Int.toNat_natCast]
    rw [hrow]
    show (⟨x.x, x.y, x.z, x.w⟩ : Vec4) = nurbss[a].Q i j k
    rw [← hx]

/-- A one-dimensional shape whose two distinct control points collide under
`HashPoint`: `(0,0,0)` and `(1/20000,0,0)` both key to `0` because
`(1/20000)*10001 = 0.50005` truncates to `0`. -/
def collShape : Nurbs :=
  { gnd := 1, p0 := 1, p1 := 0, p2 := 0, T := [[0, 0, 1, 1]]
    Q := fun i _ _ => if i = 0 then ⟨0, 0, 0, 1⟩ else ⟨mkRat 1 20000, 0, 0, 1⟩
    elems := [], enodes := [] }

theorem collShape_latticePoints :
    collShape.latticePoints = [⟨0, 0, 0, 1⟩, ⟨mkRat 1 20000, 0, 0, 1⟩] := rfl

theorem collShape_doc_eq :
    WriteMshD [collShape] none none =
      ⟨[⟨0, 0, [0, 0, 0, 1]⟩], [⟨0, 1, [1, 0, 0], [[0, 0, 1, 1]], [0, 0]⟩], []⟩ := by
  have hd : dedupAll none [collShape] = ⟨[⟨0, 0, [0, 0, 0, 1]⟩], [(0, 0)], 1⟩ := by
    simp only [dedupAll, dedupShapes, dedupFold, collShape_latticePoints, List.foldl_cons,
      List.foldl_nil, dedupPoint, Vec4.hash, hashPoint_000, hashPoint_coll, mlookup,
      vtagLookup]
    simp +decide
  simp only [WriteMshD, hd]
  refine congrArg₂ (Msh.mk _) ?_ rfl
  simp only [mapIdx', shapeD, collShape_latticePoints, List.map_cons, List.map_nil,
    Vec4.hash, hashPoint_000, hashPoint_coll, mlookup]
  simp +decide [collShape]

/-- C1 counterexample: for the shape `collShape` — whose two distinct control
points share one `HashPoint` key — the written-then-read object does not
reproduce the original control-point coordinates: the lattice point `(1,0,0)`
is `(1/20000, 0, 0, 1)` in the original but `(0, 0, 0, 1)` after the round
trip, because the exact-key deduplication merged the two points.  So the
claim's unconditional round-trip property fails. -/
theorem write_read_roundtrip_counterexample :
    collShape.Q 1 0 0 = ⟨mkRat 1 20000, 0, 0, 1⟩ ∧
    (((ReadMsh "f" (.valid (WriteMshD [collShape] none none).toJson)).okD []).getD 0
      dummyNurbs).Q 1 0 0 = ⟨0, 0, 0, 1⟩ ∧
    (⟨0, 0, 0, 1⟩ : Vec4) ≠ ⟨mkRat 1 20000, 0, 0, 1⟩ := by
  refine ⟨rfl, ?_, by decide⟩
  rw [collShape_doc_eq]
  rfl

theorem write_read_roundtrip_witness :
    (∀ o ∈ [wShape], o.T.length = o.gnd) ∧
    (∀ x ∈ allPoints [wShape], ∀ y ∈ allPoints [wShape], x.hash = y.hash → x = y) ∧
    (∃ objs : List Nurbs,
      ReadMsh "f" (.valid (WriteMshD [wShape] (some wVt) (some wCt)).toJson) = .ok objs ∧
      objs.length = [wShape].length ∧
      ∀ a, ∀ ha : a < [wShape].length, ∀ robj, objs[a]? = some robj →
        robj.gnd = [wShape][a].gnd ∧ robj.p0 = [wShape][a].p0 ∧ robj.p1 = [wShape][a].p1 ∧
        robj.p2 = [wShape][a].p2 ∧ robj.T = [wShape][a].T ∧
        ∀ i j k, i < [wShape][a].nof 0 → j < [wShape][a].nof 1 → k < [wShape][a].nof 2 →
          robj.Q i j k = [wShape][a].Q i j k) := by
  have hT : ∀ o ∈ [wShape], o.T.length = o.gnd := by
    intro o ho
    rw [List.mem_singleton] at ho
    subst ho
    rfl
  have hinj : ∀ x ∈ allPoints [wShape], ∀ y ∈ allPoints [wShape], x.hash = y.hash → x = y := by
    intro x hx y hy hxy
    have hx2 : x = ⟨0, 0, 0, 1⟩ ∨ x = ⟨2, 0, 0, 1⟩ := by
      have : x ∈ [(⟨0, 0, 0, 1⟩ : Vec4), ⟨2, 0, 0, 1⟩] := by
        simpa [allPoints, wShape_latticePoints] using hx
      simpa using this
    have hy2 : y = ⟨0, 0, 0, 1⟩ ∨ y = ⟨2, 0, 0, 1⟩ := by
      have : y ∈ [(⟨0, 0, 0, 1⟩ : Vec4), ⟨2, 0, 0, 1⟩] := by
        simpa [allPoints, wShape_latticePoints] using hy
      simpa using this
    rcases hx2 with h | h <;> rcases hy2 with h2 | h2 <;> subst h <;> subst h2 <;>
      first
        | rfl
        | (exfalso
           simp only [Vec4.hash] at hxy
           rw [show HashPoint (⟨0, 0, 0, 1⟩ : Vec4).x (⟨0, 0, 0, 1⟩ : Vec4).y
               (⟨0, 0, 0, 1⟩ : Vec4).z = HashPoint 0 0 0 from rfl] at hxy
           rw [show HashPoint (⟨2, 0, 0, 1⟩ : Vec4).x (⟨2, 0, 0, 1⟩ : Vec4).y
               (⟨2, 0, 0, 1⟩ : Vec4).z = HashPoint 2 0 0 from rfl] at hxy
           rw [hashPoint_000, hashPoint_200] at hxy
           exact absurd hxy (by decide))
  exact ⟨hT, hinj, write_read_roundtrip [wShape] (some wVt) (some wCt) "f" hT hinj⟩
